import Mathlib

/-!
Verification development for the md2cf repository core: the directory tree
resolver (md2cf/document.py) and the reconciler (md2cf/upsert.py), shallowly
embedded in Lean.  External collaborators (the YAML loader, the sha1 hash,
the ignore predicate, the remote store HTTP client) are modelled as explicit
parameters or, where the repository code is not available, from the spec.
-/

namespace Md2cf

/-! ## YAML model

PyYAML is an external collaborator.  A loaded YAML document is either a
scalar, a sequence or a mapping; loading can also fail.  The source file
document.py catches only yaml.parser.ParserError, so the model separates
that error class from the other YAML error classes (ScannerError,
ComposerError, ConstructorError, ...), which propagate. -/

inductive YamlVal where
  | scalar (s : String)
  | seq (items : List YamlVal)
  | map (entries : List (String × YamlVal))

inductive YamlResult where
  /-- Successful load. yaml.safe_load of an empty document yields None,
  modelled as .ok none. -/
  | ok (v : Option YamlVal)
  /-- yaml.parser.ParserError, the only class caught by document.py. -/
  | parserError
  /-- Any other YAML error class (ScannerError, ComposerError, ...). -/
  | otherError (name : String)

/-- Type of the modelled yaml.safe_load collaborator. -/
abbrev YamlLoader := String → YamlResult

/-! ## Frontmatter extraction (document.py, get_document_frontmatter) -/

/-- Result dictionary of get_document_frontmatter.  The Python function
returns a dict holding the parsed mapping entries plus (when frontmatter was
recognised) the extra key "frontmatter_end_line"; the model keeps that key
as a separate field. -/
structure FrontmatterDict where
  entries : List (String × YamlVal)
  frontmatterEndLine : Option Nat

/-- The empty dict returned when no frontmatter is recognised. -/
def FrontmatterDict.empty : FrontmatterDict := ⟨[], none⟩

/-- Loop of get_document_frontmatter over markdown_lines with index 1
onward: accumulate lines until a closing marker line; on the closing line
at enumerate-index i set frontmatter_end_line to i + 2 and stop.  If no
closing marker is found the accumulator holds every remaining line and
frontmatter_end_line stays 0. -/
def scanFrontmatterAux : List String → Nat → String → String × Nat
  | [], _, acc => (acc, 0)
  | l :: ls, i, acc =>
    if l = "---\n" then (acc, i + 2) else scanFrontmatterAux ls (i + 1) (acc ++ l)

/-- Marker scan of get_document_frontmatter: only a literal first line
"---\n" opens a block. -/
def scanFrontmatter : List String → String × Nat
  | [] => ("", 0)
  | first :: rest =>
    if first = "---\n" then scanFrontmatterAux rest 0 "" else ("", 0)

/-- Shallow embedding of get_document_frontmatter (document.py lines
567-588).  The YAML text is loaded only when it is non-empty and a closing
marker was found; a ParserError is swallowed (frontmatter stays None), any
other YAML error propagates as an exception; a non-mapping load result is
discarded and the empty dict is returned. -/
def get_document_frontmatter (yaml : YamlLoader) (markdownLines : List String) :
    Except String FrontmatterDict :=
  let scanned := scanFrontmatter markdownLines
  let loaded : Except String (Option YamlVal) :=
    if scanned.1 ≠ "" ∧ scanned.2 ≠ 0 then
      match yaml scanned.1 with
      | .ok v => .ok v
      | .parserError => .ok none
      | .otherError e => .error e
    else
      .ok none
  match loaded with
  | .error e => .error e
  | .ok (some (.map kvs)) => .ok ⟨kvs, some scanned.2⟩
  | .ok _ => .ok FrontmatterDict.empty

/-- Claim-side predicate: the literal first line opens a frontmatter
block. -/
def fmOpens (lines : List String) : Prop := lines.head? = some "---\n"

/-- Claim-side predicate: some line after the first is exactly the closing
marker. -/
def fmCloses (lines : List String) : Prop := "---\n" ∈ lines.drop 1

instance (lines : List String) : Decidable (fmOpens lines) := by
  unfold fmOpens; infer_instance

instance (lines : List String) : Decidable (fmCloses lines) := by
  unfold fmCloses; infer_instance

/-! ## Paths

Minimal model of pathlib paths: a path is absolute or relative, with its
components.  Resolution normalises "." and ".." components (symbolic links
are not modelled). -/

inductive PyPath where
  | absolute (comps : List String)
  | relative (comps : List String)

instance : DecidableEq PyPath := fun a b => by
  cases a <;> cases b <;> first
    | (apply isFalse; intro h; exact PyPath.noConfusion h)
    | (rename_i x y
       exact if h : x = y then isTrue (by rw [h]) else isFalse (by
         intro hc; cases hc; exact h rfl))

/-- Path.is_absolute. -/
def PyPath.isAbs : PyPath → Bool
  | .absolute _ => true
  | .relative _ => false

/-- Path.parent: drop the last component. -/
def PyPath.parentDir : PyPath → PyPath
  | .absolute cs => .absolute cs.dropLast
  | .relative cs => .relative cs.dropLast

/-- View a path as absolute components, interpreting a relative path
against the current working directory (what Path.resolve does before
normalisation). -/
def PyPath.compsAt (cwd : List String) : PyPath → List String
  | .absolute cs => cs
  | .relative cs => cwd ++ cs

/-- Normalisation step of Path.resolve: eliminate "." and ".."
components. -/
def normalizeComps (cs : List String) : List String :=
  cs.foldl (fun acc c =>
    if c = "." then acc else if c = ".." then acc.dropLast else acc ++ [c]) []

/-- Lexicographic code-point order on character lists (Python string
comparison). -/
def charListLe : List Char → List Char → Bool
  | [], _ => true
  | _ :: _, [] => false
  | a :: as, b :: bs =>
    if a.toNat < b.toNat then true
    else if b.toNat < a.toNat then false
    else charListLe as bs

/-- Python string less-or-equal at the character level. -/
def strLe (s t : String) : Bool := charListLe s.data t.data

/-! ## Page descriptors (document.py, class Page)

Fields follow the Page constructor; original_title and relative_links are
not modelled (no claim mentions them).  The body hash
(hashlib.sha1(body.encode()).hexdigest(), Page.get_content_hash) is an
external collaborator passed in as a function. -/

structure Page where
  title : Option String
  body : String
  contentType : String
  attachments : List PyPath
  filePath : Option PyPath
  pageId : Option Nat
  parentId : Option Nat
  parentTitle : Option String
  space : Option String
  labels : Option (List String)

/-- Page.get_content_hash with the sha1 collaborator explicit. -/
def Page.get_content_hash (hash : String → String) (p : Page) : String :=
  hash p.body

/-- Lowercase hexadecimal character class [a-f0-9] of CONTENT_HASH_REGEX. -/
def isLowerHexChar (c : Char) : Bool :=
  ('a' ≤ c && c ≤ 'f') || ('0' ≤ c && c ≤ '9')

/-- Character predicate for a sha1 hexdigest: exactly 40 lowercase
hexadecimal characters. -/
def isHex40 (s : String) : Bool :=
  s.data.length == 40 && s.data.all isLowerHexChar

/-- Match the token shape of CONTENT_HASH_REGEX at the very end of a
character list: the list ends in the 43 characters "[v", forty lowercase
hex digits, "]"; return the embedded digits. -/
def tokenOfChars (cs : List Char) : Option String :=
  if cs.length < 43 then none
  else
    match cs.drop (cs.length - 43) with
    | '[' :: 'v' :: rest =>
      if rest.drop 40 = [']'] && (rest.take 40).all isLowerHexChar then
        some (String.mk (rest.take 40))
      else none
    | _ => none

/-- Embedding of re.search with CONTENT_HASH_REGEX (upsert.py line 11,
regex r"\x5bv([a-f0-9]\x7b40\x7d)]$").  In Python re, the dollar anchor
matches at the end of the string or just before a single newline at the end
of the string, so one trailing newline is stripped before matching the
token; the match, when it exists, is unique because the token occupies the
final 43 characters. -/
def contentHashSearch (msg : String) : Option String :=
  let cs := msg.data
  tokenOfChars (if cs.getLast? = some '\n' then cs.dropLast else cs)

/-- Modelled from the spec: "Revision-message fingerprint token format:
literal [v + 40 lowercase hexadecimal characters + ], anchored to the end
of the message string" — the claim-side reading with no allowance for a
trailing newline, for comparison with contentHashSearch. -/
def specFingerprintAtEnd (msg : String) : Option String :=
  tokenOfChars msg.data

/-! ## Remote store

md2cf/api.py is not part of the provided sources; the store operations are
modelled from the spec (sections 4.2 and 6): findPage by explicit id when
supplied, else by title and space key; createPage stores body, labels,
revision message and parent (the immediate ancestor is the last entry of
ancestors, top-level pages have no ancestors); updatePage replaces body,
message and parent and replaces labels only when a label list is supplied;
addLabels only adds labels, never removes. -/

structure RemotePage where
  id : Nat
  title : Option String
  space : Option String
  body : String
  versionMessage : String
  ancestors : List Nat
  labels : List String
  contentType : String

structure RemoteAttachment where
  filename : String
  versionMessage : String
  content : String

structure Store where
  pages : List RemotePage
  attachments : List (Nat × RemoteAttachment)
  nextId : Nat

/-- Modelled from the spec: findPage(title, spaceKey, id?) — lookup by the
explicit remote id when one is supplied, otherwise by title and space key.
The content_type argument of the Python call is not part of the spec
contract and is ignored. -/
def Store.getPage (st : Store) (title : Option String) (space : Option String)
    (pageId : Option Nat) : Option RemotePage :=
  match pageId with
  | some i => st.pages.find? (fun rp => rp.id == i)
  | none => st.pages.find? (fun rp => rp.title == title && rp.space == space)

/-- Modelled from the spec: createPage stores the descriptor body, labels
and revision message; the created page has the given parent as immediate
ancestor, or no ancestors for a top-level page. -/
def Store.createPage (st : Store) (space : Option String) (title : Option String)
    (body : String) (contentType : String) (parentId : Option Nat)
    (updateMessage : String) (labels : Option (List String)) :
    RemotePage × Store :=
  let newPage : RemotePage :=
    { id := st.nextId, title := title, space := space, body := body,
      versionMessage := updateMessage,
      ancestors := (match parentId with | some p => [p] | none => []),
      labels := labels.getD [], contentType := contentType }
  (newPage, { st with pages := st.pages ++ [newPage], nextId := st.nextId + 1 })

/-- Modelled from the spec: updatePage replaces body, revision message and
parent; it replaces the label set only when one is supplied (full label
replacement), otherwise labels are untouched. -/
def Store.updatePage (st : Store) (existing : RemotePage) (body : String)
    (parentId : Option Nat) (updateMessage : String)
    (labels : Option (List String)) (minorEdit : Bool) : RemotePage × Store :=
  let updated : RemotePage :=
    { existing with
      body := body
      versionMessage := updateMessage
      ancestors := (match parentId with | some p => [p] | none => [])
      labels := (match labels with | some ls => ls | none => existing.labels) }
  (updated, { st with
    pages := st.pages.map (fun rp => if rp.id == existing.id then updated else rp) })

/-- Modelled from the spec: addLabels(page, labels) is additive — it adds
the labels that are not yet present and never removes a label the remote
already has. -/
def Store.addLabels (st : Store) (page : RemotePage) (labels : List String) :
    RemotePage × Store :=
  let updated : RemotePage :=
    { page with labels := page.labels ++ labels.filter (fun l => !(page.labels.contains l)) }
  (updated, { st with
    pages := st.pages.map (fun rp => if rp.id == page.id then updated else rp) })

/-- Modelled from the spec: getAttachment(page, filename). -/
def Store.getAttachment (st : Store) (ep : RemotePage) (filename : String) :
    Option RemoteAttachment :=
  (st.attachments.find? (fun pr => pr.1 == ep.id && pr.2.filename == filename)).map (·.2)

/-- Modelled from the spec: createAttachment(page, content). -/
def Store.createAttachment (st : Store) (ep : RemotePage) (filename : String)
    (content : String) (message : String) : RemoteAttachment × Store :=
  let att : RemoteAttachment := ⟨filename, message, content⟩
  (att, { st with attachments := st.attachments ++ [(ep.id, att)] })

/-- Modelled from the spec: updateAttachment(page, existing, content). -/
def Store.updateAttachment (st : Store) (ep : RemotePage)
    (existing : RemoteAttachment) (content : String) (message : String) :
    RemoteAttachment × Store :=
  let att : RemoteAttachment := { existing with versionMessage := message, content := content }
  let replaceAtt := fun (pr : Nat × RemoteAttachment) =>
    if pr.1 == ep.id && pr.2.filename == existing.filename then (pr.1, att) else pr
  (att, { st with attachments := st.attachments.map replaceAtt })

/-! ## Reconciler (upsert.py) -/

inductive UpsertAction where
  | created
  | updated
  | skipped
  deriving DecidableEq, Repr

/-- get_parent_id_from_title (upsert.py lines 34-47): resolve the parent
title to a remote id, raising KeyError when no such page exists. -/
def get_parent_id_from_title (st : Store) (page : Page) : Except String Nat :=
  match st.getPage page.parentTitle page.space none with
  | none => .error "KeyError: The parent page could not be found"
  | some parentPage => .ok parentPage.id

/-- Parent backfill of upsert_page (lines 72-76): when parent_id is unset
but parent_title is set, resolve it. -/
def resolveParent (st : Store) (page : Page) : Except String Page :=
  if page.parentId = none then
    if page.parentTitle ≠ none then
      match get_parent_id_from_title st page with
      | .error e => .error e
      | .ok pid => .ok { page with parentId := some pid }
    else .ok page
  else .ok page

/-- Revision message composition (lines 78-83): with only_changed the
content fingerprint is appended in the fixed bracketed form; an empty
message is replaced by the bare token. -/
def composeMessage (hash : String → String) (onlyChanged : Bool) (message : String)
    (page : Page) : String :=
  if onlyChanged then
    let pageHash := page.get_content_hash hash
    if message ≠ "" then message ++ " [v" ++ pageHash ++ "]" else "[v" ++ pageHash ++ "]"
  else message

/-- Insertion step of the sort below. -/
def insertSortedString (x : String) : List String → List String
  | [] => [x]
  | y :: ys => if strLe x y then x :: y :: ys else y :: insertSortedString x ys

/-- Python sorted() on a list of label strings (stable insertion sort). -/
def sortStrings : List String → List String
  | [] => []
  | x :: xs => insertSortedString x (sortStrings xs)

/-- labels_need_updating (lines 124-131): labels never need updating when
the descriptor has none; otherwise compare the sorted remote label names
with the sorted descriptor labels. -/
def labels_need_updating (page : Page) (existing : RemotePage) : Bool :=
  match page.labels with
  | none => false
  | some ls => !(sortStrings existing.labels == sortStrings ls)

/-- Shared tail of page_needs_updating (lines 147-159): full label
replacement with differing labels forces an update; otherwise recover the
fingerprint from the remote revision message and skip only when it equals
the descriptor fingerprint. -/
def hashOrLabelsCheck (hash : String → String) (page : Page) (existing : RemotePage)
    (replaceAllLabels : Bool) : Bool :=
  if replaceAllLabels && labels_need_updating page existing then true
  else
    match contentHashSearch existing.versionMessage with
    | some originalPageHash => !(originalPageHash == page.get_content_hash hash)
    | none => true

/-- page_needs_updating (lines 134-159). -/
def page_needs_updating (hash : String → String) (page : Page) (existing : RemotePage)
    (replaceAllLabels : Bool) : Bool :=
  match page.parentId with
  | none =>
    if existing.ancestors ≠ [] then true
    else hashOrLabelsCheck hash page existing replaceAllLabels
  | some p =>
    if existing.ancestors = [] ∨ existing.ancestors.getLast? ≠ some p then true
    else hashOrLabelsCheck hash page existing replaceAllLabels

/-- Python truthiness of page.labels at line 115: a non-None, non-empty
list. -/
def pageLabelsTruthy (page : Page) : Bool :=
  match page.labels with
  | some (_ :: _) => true
  | _ => false

structure UpsertPageResult where
  action : UpsertAction
  response : RemotePage
  store : Store
  page : Page
  /-- Arguments of the add_labels call at line 119 when one was issued
  (observation of the side effect; not a field of the Python result). -/
  addedLabels : Option (List String)

/-- Create branch of upsert_page (upsert.py lines 86-96): create the page
with the composed message and the descriptor labels. -/
def upsertCreate (hash : String → String) (st : Store) (message : String)
    (page : Page) (onlyChanged : Bool) : UpsertPageResult :=
  let pageMessage := composeMessage hash onlyChanged message page
  let created := st.createPage page.space page.title page.body page.contentType
    page.parentId pageMessage page.labels
  { action := .created, response := created.1, store := created.2,
    page := page, addedLabels := none }

/-- Existing-page branch of upsert_page (upsert.py lines 97-119): update or
skip the body, then possibly issue the separate additive label call. -/
def upsertExisting (hash : String → String) (st : Store) (message : String)
    (page : Page) (existingPage : RemotePage) (onlyChanged : Bool)
    (replaceAllLabels : Bool) (minorEdit : Bool) : UpsertPageResult :=
  let pageMessage := composeMessage hash onlyChanged message page
  let step :=
    if !onlyChanged || page_needs_updating hash page existingPage replaceAllLabels then
      let updated := st.updatePage existingPage page.body page.parentId pageMessage
        (if replaceAllLabels then page.labels else none) minorEdit
      (UpsertAction.updated, updated.1, updated.2)
    else
      (UpsertAction.skipped, existingPage, st)
  let afterLabels :=
    if !replaceAllLabels && pageLabelsTruthy page && labels_need_updating page step.2.1 then
      ((step.2.2.addLabels step.2.1 (page.labels.getD [])).2,
        some (page.labels.getD []))
    else
      (step.2.2, none)
  { action := step.1, response := step.2.1, store := afterLabels.1,
    page := page, addedLabels := afterLabels.2 }

/-- Shallow embedding of upsert_page (upsert.py lines 50-121).  The store
is threaded explicitly; the returned page carries the parent_id backfill
performed on the Python Page object in place. -/
def upsert_page (hash : String → String) (st : Store) (message : String) (page : Page)
    (onlyChanged : Bool) (replaceAllLabels : Bool) (minorEdit : Bool) :
    Except String UpsertPageResult :=
  let existing0 := st.getPage page.title page.space page.pageId
  match resolveParent st page with
  | .error e => .error e
  | .ok page =>
    match existing0 with
    | none => .ok (upsertCreate hash st message page onlyChanged)
    | some existingPage =>
      .ok (upsertExisting hash st message page existingPage onlyChanged
        replaceAllLabels minorEdit)

/-! ## Attachment reconciliation (upsert.py lines 162-252)

The file system and the streamed file hash (get_file_sha1) are external
collaborators: fs maps a resolved absolute path to the file content when
the file exists, and fileSha1 gives the sha1 hexdigest of a content. -/

/-- Attachment path resolution (upsert.py lines 178-186): an absolute path
is used as-is; a relative path resolves against the directory of the owning
page source file when there is one, else against the current working
directory. -/
def resolveAttachmentPath (cwd : List String) (page : Page) (attachmentPath : PyPath) :
    List String :=
  if attachmentPath.isAbs then
    attachmentPath.compsAt cwd
  else
    match page.filePath with
    | some fp => normalizeComps ((fp.parentDir.compsAt cwd) ++ attachmentPath.compsAt [])
    | none => normalizeComps (cwd ++ attachmentPath.compsAt [])

/-- Modelled from the spec: the resolution rule in its own words — "as-is
if already absolute, else relative to the owning document's source path,
else relative to the current working directory if the document has no
source path" — for comparison with resolveAttachmentPath. -/
def specAttachmentResolution (cwd : List String) (page : Page) (attachmentPath : PyPath) :
    List String :=
  match attachmentPath with
  | .absolute comps => comps
  | .relative comps =>
    match page.filePath with
    | some fp => normalizeComps (fp.parentDir.compsAt cwd ++ comps)
    | none => normalizeComps (cwd ++ comps)

structure UpsertAttachmentResult where
  action : UpsertAction
  response : Option RemoteAttachment
  store : Store
  /-- Error messages printed by the function (observation of the print
  side effects). -/
  reports : List String

/-- Shallow embedding of upsert_attachment (upsert.py lines 162-252).  The
guard on an invalid existing_page object is modelled by the none case; an
unresolvable or missing file yields a SKIPPED result with a None response
and a report, and never an exception.  The final action-is-None fallback of
the Python code (lines 240-250) is unreachable: should_update is set to
False only together with action SKIPPED. -/
def upsert_attachment (fileSha1 : String → String) (fs : List String → Option String)
    (cwd : List String) (st : Store) (page : Page) (existingPage : Option RemotePage)
    (attachmentPath : PyPath) (message : String) (onlyChanged : Bool) :
    UpsertAttachmentResult :=
  match existingPage with
  | none =>
    { action := .skipped, response := none, store := st,
      reports := ["Error: Invalid existing_page object passed to upsert_attachment"] }
  | some ep =>
    let resolved := resolveAttachmentPath cwd page attachmentPath
    match fs resolved with
    | none =>
      { action := .skipped, response := none, store := st,
        reports := ["Error: Attachment file not found"] }
    | some content =>
      let attachmentFilename := resolved.getLast?.getD ""
      let newAttachmentHash : Option String :=
        if onlyChanged then some (fileSha1 content) else none
      let attachmentMessage :=
        match newAttachmentHash with
        | some h => if message ≠ "" then message ++ " [v" ++ h ++ "]" else "[v" ++ h ++ "]"
        | none => message
      match st.getAttachment ep attachmentFilename with
      | none =>
        let created := st.createAttachment ep attachmentFilename content attachmentMessage
        { action := .created, response := some created.1, store := created.2, reports := [] }
      | some existingAtt =>
        let shouldUpdate :=
          if onlyChanged && (newAttachmentHash.getD "") ≠ "" then
            match contentHashSearch existingAtt.versionMessage with
            | some originalAttachmentHash => !(originalAttachmentHash == newAttachmentHash.getD "")
            | none => true
          else true
        if shouldUpdate then
          let updated := st.updateAttachment ep existingAtt content attachmentMessage
          { action := .updated, response := some updated.1, store := updated.2, reports := [] }
        else
          { action := .skipped, response := some existingAtt, store := st, reports := [] }

/-! ## Directory tree model (document.py, get_pages_from_directory)

A directory tree node carries its file entries and subdirectories; os.walk
visits the tree top-down, a directory before its subdirectories, with the
subdirectory order given by the list order.  Reading and rendering one
markdown file (get_page_data_from_file_path: mermaid preprocessing,
encoding fallbacks, mistune rendering and frontmatter extraction) is
summarised by the observable parse outcome stored on the file node: none
when the file content cannot be read through all fallbacks (the function
returns None), otherwise the resolved raw title (empty string when falsy),
the rendered body and the frontmatter labels.  The ignore collaborator
(GitRepository.is_ignored, configured by use_mdignore) is an explicit
predicate on resolved paths. -/

structure ParsedDoc where
  title : String
  body : String
  labels : Option (List String)

structure FileNode where
  name : String
  /-- Observable outcome of get_page_data_from_file_path on this file. -/
  parse : Option ParsedDoc
  /-- For a .pages file: the "title" key of its YAML mapping, if any. -/
  pagesTitle : Option String

inductive DirTree where
  | node (name : String) (files : List FileNode) (subdirs : List DirTree)

def DirTree.name : DirTree → String
  | .node n _ _ => n

def DirTree.files : DirTree → List FileNode
  | .node _ fs _ => fs

def DirTree.subdirs : DirTree → List DirTree
  | .node _ _ ds => ds

/-- Python pathlib stem: the file name without its final suffix; a dot at
the very start or the very end of the name does not begin a suffix. -/
def pyStem (name : String) : String :=
  let cs := name.data
  let lastDot := (List.range cs.length).foldl
    (fun acc i => if cs.getD i ' ' = '.' then some i else acc) none
  match lastDot with
  | some i => if i = 0 ∨ i = cs.length - 1 then name else String.mk (cs.take i)
  | none => name

/-- Python str.lower on a file name. -/
def pyLower (s : String) : String :=
  String.mk (s.data.map Char.toLower)

/-- Python str.endswith at the character level. -/
def strEndsWith (s t : String) : Bool :=
  s.data.drop (s.data.length - t.data.length) == t.data

/-- Python str.capitalize: first character upper-cased, the rest
lower-cased. -/
def pyCapitalize (s : String) : String :=
  match s.data with
  | [] => ""
  | c :: rest => String.mk (c.toUpper :: rest.map Char.toLower)

/-- Folder title beautification (document.py lines 184-189): replace dashes
and underscores by spaces and capitalize. -/
def beautifyName (name : String) : String :=
  pyCapitalize ((name.replace "-" " ").replace "_" " ")

/-- str(current_path.relative_to(base)): the path components past the base
prefix joined with slashes. -/
def relativeTo (p : List String) (base : List String) : String :=
  String.intercalate "/" (p.drop base.length)

/-- Parents of a resolved path, nearest first (pathlib Path.parents): all
proper prefixes, longest first. -/
def pathParents (p : List String) : List (List String) :=
  ((List.range p.length).map (fun k => p.take k)).reverse

/-- Per-directory entry of the ephemeral folder_data mapping (document.py
line 154): the dictionary only ever holds the keys n_files and title. -/
structure FolderInfo where
  nFiles : Nat
  title : Option String

def fdLookup (fd : List (List String × FolderInfo)) (p : List String) :
    Option FolderInfo :=
  (fd.find? (fun e => e.1 == p)).map (·.2)

def fdInsert (fd : List (List String × FolderInfo)) (p : List String)
    (info : FolderInfo) : List (List String × FolderInfo) :=
  (p, info) :: fd.filter (fun e => !(e.1 == p))

/-- find_non_empty_parent_path (document.py lines 77-83): the nearest
ancestor directory recorded with at least one document, else the default
(the walk root, which is passed in resolved form). -/
def find_non_empty_parent_path (currentDir : List String)
    (fd : List (List String × FolderInfo)) (default : List String) : List String :=
  match (pathParents currentDir).find? (fun par =>
      match fdLookup fd par with
      | some info => info.nFiles ≠ 0
      | none => false) with
  | some par => par
  | none => default

structure WalkOptions where
  collapseSinglePages : Bool
  skipEmpty : Bool
  collapseEmpty : Bool
  beautifyFolders : Bool
  usePagesFile : Bool

structure WalkState where
  folderData : List (List String × FolderInfo)
  pages : List Page

/-- Helper building the Page objects appended by the walk: attachments and
relative links are not modelled, space and ids are never set by the tree
resolver. -/
def mkWalkPage (title : Option String) (parentTitle : Option String) (body : String)
    (filePath : Option PyPath) (labels : Option (List String)) : Page :=
  { title := title, body := body, contentType := "page", attachments := [],
    filePath := filePath, pageId := none, parentId := none,
    parentTitle := parentTitle, space := none, labels := labels }

/-- Observable behaviour of get_page_data_from_file_path (document.py lines
278-509) for a file of the modelled tree: None on read failure; otherwise a
Page with the frontmatter-or-rendered title, falling back to the file name
stem when that title is falsy, the rendered body, the frontmatter labels
and the source file path. -/
def get_page_data_from_file_path (dirPath : List String) (f : FileNode) :
    Option Page :=
  match f.parse with
  | none => none
  | some pd =>
    let title := if pd.title = "" then pyStem f.name else pd.title
    some (mkWalkPage (some title) none pd.body
      (some (.absolute (dirPath ++ [f.name]))) pd.labels)

/-- Insertion step of the file sort below. -/
def insertSortedFile (f : FileNode) : List FileNode → List FileNode
  | [] => [f]
  | g :: gs => if strLe f.name g.name then f :: g :: gs else g :: insertSortedFile f gs

/-- Python sorted(markdown_files): the md files of one directory in
lexicographic file-name order (sorting same-directory paths compares the
file names). -/
def sortFilesByName : List FileNode → List FileNode
  | [] => []
  | f :: fs => insertSortedFile f (sortFilesByName fs)

/-- Document loop of get_pages_from_directory (lines 252-273): documents in
sorted order; an unreadable document is skipped; in a single-document
directory with no subdirectories under collapse_single_pages the code reads
the parent_title key of the folder_data entry, a key that is never written
(entries only hold n_files and title, lines 154 and 216), so Python raises
KeyError; otherwise the document is parented to parent_page_title and, when
the single-document collapse applies, the folder_data title is replaced by
the document title. -/
def processDocsLoop (opts : WalkOptions) (currentPath : List String)
    (parentPageTitle : Option String) (mdCount : Nat) (noSubdirs : Bool) :
    List FileNode → WalkState → Except String WalkState
  | [], st => .ok st
  | f :: fs, st =>
    match get_page_data_from_file_path currentPath f with
    | none => processDocsLoop opts currentPath parentPageTitle mdCount noSubdirs fs st
    | some pageData =>
      if opts.collapseSinglePages && mdCount == 1 && noSubdirs then
        .error "KeyError: parent_title"
      else
        let pageData := { pageData with parentTitle := parentPageTitle }
        let st1 : WalkState := { st with pages := st.pages ++ [pageData] }
        let st2E : Except String WalkState :=
          if mdCount == 1 && opts.collapseSinglePages then
            match fdLookup st1.folderData currentPath with
            | some info =>
              .ok { st1 with
                folderData := fdInsert st1.folderData currentPath ⟨info.nFiles, pageData.title⟩ }
            | none => .error "KeyError: current_path not in folder_data"
          else .ok st1
        match st2E with
        | .error e => .error e
        | .ok st2 => processDocsLoop opts currentPath parentPageTitle mdCount noSubdirs fs st2

/-- Directory-content file handling (document.py lines 126-139): the file
named after the directory, parsed when present and not ignored; a read
failure there raises (the None check is missing at line 139). -/
def readDirContent (ign : List String → Bool) (q : List String)
    (files : List FileNode) (dcName : String) : Except String (Option Page) :=
  match files.find? (fun f => f.name == dcName) with
  | none => .ok none
  | some f =>
    if ign (q ++ [f.name]) then .ok none
    else
      match get_page_data_from_file_path q f with
      | none => .error "AttributeError: NoneType object has no attribute file_path"
      | some pg => .ok (some pg)

/-- Markdown file list of one directory (document.py lines 141-152):
names ending in .md case-insensitively, ignored files filtered out, the
directory-content file removed when its name is present. -/
def markdownFilesOf (ign : List String → Bool) (q : List String)
    (files : List FileNode) (dcName : String) (dcPresent : Bool) : List FileNode :=
  let m1 := (files.filter (fun f => strEndsWith (pyLower f.name) ".md")).filter
    (fun f => !(ign (q ++ [f.name])))
  if dcPresent then m1.eraseP (fun f => f.name == dcName) else m1

/-- Parent and folder title computation (document.py lines 156-190),
producing (folder_parent_title, parent_page_title, folder_title). -/
def computeTitles (opts : WalkOptions) (basePath q : List String) (nameStr : String)
    (mdCount : Nat) (fd1 : List (List String × FolderInfo)) :
    Except String (Option String × Option String × Option String) :=
  if q == basePath then .ok (none, none, none)
  else
    let folderParentPath :=
      if opts.skipEmpty || opts.collapseEmpty then
        find_non_empty_parent_path q fd1 basePath
      else q.dropLast
    match fdLookup fd1 folderParentPath with
    | none => .error "KeyError: folder parent path not in folder_data"
    | some parentInfo =>
      let folderParentTitle := parentInfo.title
      if mdCount == 1 && opts.collapseSinglePages then
        .ok (folderParentTitle, folderParentTitle, none)
      else
        let ppt0 := some nameStr
        let ppt1 := if opts.collapseEmpty then some (relativeTo q folderParentPath)
          else ppt0
        let ppt2 := if opts.beautifyFolders then some (beautifyName nameStr) else ppt1
        .ok (folderParentTitle, ppt2, ppt2)

/-- Optional .pages override (document.py lines 191-196). -/
def applyPagesFile (opts : WalkOptions) (files : List FileNode)
    (pp : Option String × Option String) : Option String × Option String :=
  match (if opts.usePagesFile && (files.map (fun f => f.name)).contains ".pages" then
      match files.find? (fun f => f.name == ".pages") with
      | some pf => pf.pagesTitle
      | none => none
    else none) with
  | some t => (some t, some t)
  | none => pp

/-- Directory-content title override (document.py lines 198-214). -/
def applyDirContent (opts : WalkOptions) (files : List FileNode) (nameStr : String)
    (dcp : Option Page) (pp : Option String × Option String) :
    Option String × Option String :=
  match dcp with
  | some dcpage =>
    match dcpage.title with
    | some dct =>
      if dct ≠ "" then
        let isDefaultOrNone :=
          pp.1 == some nameStr
          || (opts.beautifyFolders && pp.1 == some (beautifyName nameStr))
          || pp.1 == none
        let newPpt :=
          if isDefaultOrNone
            || (opts.usePagesFile && !(files.map (fun f => f.name)).contains ".pages")
          then some dct else pp.1
        (newPpt, some dct)
      else pp
    | none => pp
  | none => pp

/-- Folder page emission condition (document.py lines 218-225). -/
def emitFolderCond (opts : WalkOptions) (md : List FileNode) (subdirs : List DirTree)
    (dcp : Option Page) (ft : Option String) : Bool :=
  ft.isSome
  && (!md.isEmpty || !subdirs.isEmpty || dcp.isSome)
  && !(opts.skipEmpty && md.isEmpty && !dcp.isSome)
  && !(opts.collapseEmpty && md.isEmpty && !dcp.isSome)

/-- The folder page appended at lines 227-250. -/
def folderPageOf (ft fpt : Option String) (dcp : Option Page) : Page :=
  mkWalkPage ft fpt
    (match dcp with | some d => d.body | none => "")
    (match dcp with | some d => d.filePath | none => none)
    (match dcp with | some d => d.labels | none => none)

/-- Body of the walk loop of get_pages_from_directory (document.py lines
120-273) for one visited directory. -/
def processDir (opts : WalkOptions) (ign : List String → Bool)
    (basePath : List String) (st : WalkState) (currentPath : List String)
    (node : DirTree) : Except String WalkState :=
  if ign currentPath then .ok st
  else
    let nameStr := currentPath.getLast?.getD ""
    let dcName := "_" ++ nameStr ++ ".md"
    match readDirContent ign currentPath node.files dcName with
    | .error e => .error e
    | .ok dirContentPageData =>
      let markdownFiles := markdownFilesOf ign currentPath node.files dcName
        (node.files.find? (fun f => f.name == dcName)).isSome
      let fd1 := fdInsert st.folderData currentPath ⟨markdownFiles.length, none⟩
      match computeTitles opts basePath currentPath nameStr markdownFiles.length fd1 with
      | .error e => .error e
      | .ok (folderParentTitle, ppt2, ft0) =>
        let afterContent := applyDirContent opts node.files nameStr dirContentPageData
          (applyPagesFile opts node.files (ppt2, ft0))
        let parentPageTitle := afterContent.1
        let folderTitle := afterContent.2
        let fd2 := fdInsert fd1 currentPath ⟨markdownFiles.length, folderTitle⟩
        let pages1 :=
          if emitFolderCond opts markdownFiles node.subdirs dirContentPageData folderTitle
          then st.pages ++ [folderPageOf folderTitle folderParentTitle dirContentPageData]
          else st.pages
        processDocsLoop opts currentPath parentPageTitle markdownFiles.length
          node.subdirs.isEmpty (sortFilesByName markdownFiles)
          { folderData := fd2, pages := pages1 }

mutual

/-- Flattened os.walk order: each directory before its own subtree, a
subtree before the following sibling subtrees. -/
def walkEntries : DirTree → List String → List (List String × DirTree)
  | .node n fs ds, pre =>
    (pre ++ [n], DirTree.node n fs ds) :: walkForest ds (pre ++ [n])

def walkForest : List DirTree → List String → List (List String × DirTree)
  | [], _ => []
  | t :: ts, pre => walkEntries t pre ++ walkForest ts pre

end

def processEntries (opts : WalkOptions) (ign : List String → Bool)
    (basePath : List String) :
    List (List String × DirTree) → WalkState → Except String WalkState
  | [], st => .ok st
  | (p, nd) :: rest, st =>
    match processDir opts ign basePath st p nd with
    | .error e => .error e
    | .ok st1 => processEntries opts ign basePath rest st1

/-- Shallow embedding of get_pages_from_directory (document.py lines
86-275), with the walk root passed in resolved form (base_path =
file_path.resolve()). -/
def get_pages_from_directory (tree : DirTree) (opts : WalkOptions)
    (ign : List String → Bool) : Except String (List Page) :=
  match processEntries opts ign [tree.name] (walkEntries tree []) ⟨[], []⟩ with
  | .error e => .error e
  | .ok st => .ok st.pages

/-! ## Claim-side checkers and helper lemmas -/

/-- Topological-order check of claim C1: every page with a set parent title
is preceded by a page of that title.  The accumulator holds the titles of
the pages already passed. -/
def topoOkAux : List String → List Page → Bool
  | _, [] => true
  | seen, p :: ps =>
    (match p.parentTitle with
     | none => true
     | some t => seen.contains t)
    && topoOkAux (seen ++ (match p.title with | some t => [t] | none => [])) ps

def topoOk (pages : List Page) : Bool := topoOkAux [] pages

theorem isHex40_length (h : String) (hh : isHex40 h = true) : h.data.length = 40 := by
  unfold isHex40 at hh
  simpa using ((Bool.and_eq_true _ _).mp hh).1

theorem isHex40_all (h : String) (hh : isHex40 h = true) :
    h.data.all isLowerHexChar = true := by
  unfold isHex40 at hh
  exact ((Bool.and_eq_true _ _).mp hh).2

/-- The composed revision message always ends in the bracketed fingerprint
token, so the regex recovers exactly the embedded hash. -/
theorem contentHashSearch_append (pre h : String) (hh : isHex40 h = true) :
    contentHashSearch (pre ++ "[v" ++ h ++ "]") = some h := by
  have hlen : h.data.length = 40 := isHex40_length h hh
  have hdata : (pre ++ "[v" ++ h ++ "]").data
      = (pre.data ++ ['[', 'v'] ++ h.data) ++ [']'] := by
    simp [String.data_append]
  unfold contentHashSearch
  rw [hdata]
  have hlast : ((pre.data ++ ['[', 'v'] ++ h.data) ++ [']']).getLast? = some ']' :=
    List.getLast?_concat _
  show tokenOfChars
    (if ((pre.data ++ ['[', 'v'] ++ h.data) ++ [']']).getLast? = some '\n'
      then ((pre.data ++ ['[', 'v'] ++ h.data) ++ [']']).dropLast
      else (pre.data ++ ['[', 'v'] ++ h.data) ++ [']']) = some h
  rw [hlast]
  rw [if_neg (by simp)]
  unfold tokenOfChars
  have htot : ((pre.data ++ ['[', 'v'] ++ h.data) ++ [']']).length
      = pre.data.length + 43 := by
    simp [hlen]
  rw [if_neg (by rw [htot]; omega)]
  have hdrop : (((pre.data ++ ['[', 'v'] ++ h.data) ++ [']']).drop
      (((pre.data ++ ['[', 'v'] ++ h.data) ++ [']']).length - 43))
      = '[' :: 'v' :: (h.data ++ [']']) := by
    rw [htot]
    have : pre.data.length + 43 - 43 = pre.data.length := by omega
    rw [this]
    have hsplit : (pre.data ++ ['[', 'v'] ++ h.data) ++ [']']
        = pre.data ++ ('[' :: 'v' :: (h.data ++ [']'])) := by simp
    rw [hsplit, List.drop_left]
  rw [hdrop]
  have htake : (h.data ++ [']']).take 40 = h.data := by
    rw [← hlen, List.take_left]
  have hdrop2 : (h.data ++ [']']).drop 40 = [']'] := by
    rw [← hlen, List.drop_left]
  show (if (decide (List.drop 40 (h.data ++ [']']) = [']'])
        && (List.take 40 (h.data ++ [']'])).all isLowerHexChar) = true then
      some (String.mk (List.take 40 (h.data ++ [']'])))
    else none) = some h
  rw [hdrop2, htake]
  rw [if_pos (by simp [isHex40_all h hh])]

/-- resolveParent only ever touches parent_id. -/
theorem resolveParent_fields (st : Store) (page rp : Page)
    (h : resolveParent st page = .ok rp) :
    rp.title = page.title ∧ rp.body = page.body ∧ rp.labels = page.labels ∧
    rp.space = page.space ∧ rp.pageId = page.pageId ∧
    rp.parentTitle = page.parentTitle ∧ rp.contentType = page.contentType := by
  unfold resolveParent at h
  by_cases h1 : page.parentId = none
  · rw [if_pos h1] at h
    by_cases h2 : page.parentTitle ≠ none
    · rw [if_pos h2] at h
      cases hg : get_parent_id_from_title st page with
      | error e => rw [hg] at h; exact absurd h (by simp)
      | ok pid =>
        rw [hg] at h
        have := Except.ok.inj h
        subst this
        exact ⟨rfl, rfl, rfl, rfl, rfl, rfl, rfl⟩
    · rw [if_neg h2] at h
      have := Except.ok.inj h
      subst this
      exact ⟨rfl, rfl, rfl, rfl, rfl, rfl, rfl⟩
  · rw [if_neg h1] at h
    have := Except.ok.inj h
    subst this
    exact ⟨rfl, rfl, rfl, rfl, rfl, rfl, rfl⟩

/-- A page already resolved stays fixed under resolveParent against any
store. -/
theorem resolveParent_idem (st : Store) (page rp : Page)
    (h : resolveParent st page = .ok rp) :
    ∀ st2 : Store, resolveParent st2 rp = .ok rp := by
  intro st2
  unfold resolveParent at h ⊢
  by_cases h1 : page.parentId = none
  · rw [if_pos h1] at h
    by_cases h2 : page.parentTitle ≠ none
    · rw [if_pos h2] at h
      cases hg : get_parent_id_from_title st page with
      | error e => rw [hg] at h; exact absurd h (by simp)
      | ok pid =>
        rw [hg] at h
        have := Except.ok.inj h
        subst this
        simp
    · rw [if_neg h2] at h
      have := Except.ok.inj h
      subst this
      rw [if_pos h1, if_neg h2]
  · rw [if_neg h1] at h
    have := Except.ok.inj h
    subst this
    rw [if_neg h1]

/-! ## Concrete fixtures -/

def noIgnore : List String → Bool := fun _ => false

def defaultWalkOptions : WalkOptions := ⟨false, false, false, false, false⟩

/-- Tree of the repository test
test_get_pages_from_directory_collapse_single_pages: root-folder with
root-folder-file.md and parent/child/child-file.md; empty files render with
no title and an empty body. -/
def c2Tree : DirTree :=
  .node "root-folder" [⟨"root-folder-file.md", some ⟨"", "", none⟩, none⟩]
    [.node "parent" []
      [.node "child" [⟨"child-file.md", some ⟨"", "", none⟩, none⟩] []]]

/-- Directory D whose directory-content file _D.md cannot be read, next to
a readable doc.md. -/
def c5Tree : DirTree :=
  .node "root" []
    [.node "D" [⟨"_D.md", none, none⟩, ⟨"doc.md", some ⟨"", "", none⟩, none⟩] []]

/-- A plain unreadable document next to a readable one. -/
def c5PlainTree : DirTree :=
  .node "root" [⟨"bad.md", none, none⟩, ⟨"good.md", some ⟨"", "", none⟩, none⟩] []

/-- collapse_empty tree for claim C1: an empty intermediate directory
parent above directory D, where D holds a directory-content file _D.md
whose rendered title is T plus a plain document doc.md. -/
def c1Tree : DirTree :=
  .node "root" []
    [.node "parent" []
      [.node "D" [⟨"_D.md", some ⟨"T", "B", none⟩, none⟩,
                  ⟨"doc.md", some ⟨"d", "", none⟩, none⟩] []]]

def c1Opts : WalkOptions := ⟨false, false, true, false, false⟩

/-! ## Claim C1 — counterexample -/

/-- C1, counterexample.  Under collapse_empty, directory D is first
retitled to the relative path "parent/D"; its directory-content file then
replaces the folder page title by T, but parent_page_title keeps the value
"parent/D" because the default-or-none heuristic (document.py lines
200-214) does not recognise a collapse_empty relative-path title.  The walk
completes and emits the folder page titled T followed by the document
parented to "parent/D", a title no emitted page carries, so the claimed
topological order fails. -/
theorem C1_counterexample_collapse_empty_retitle :
    (get_pages_from_directory c1Tree c1Opts noIgnore).map topoOk = .ok false ∧
    (get_pages_from_directory c1Tree c1Opts noIgnore).map
        (List.map (fun p => (p.title, p.parentTitle)))
      = .ok [(some "T", none), (some "d", some "parent/D")] := by
  exact ⟨rfl, rfl⟩

/-! ## Claim C2 — code bug -/

/-- C2, code-bug evaluation.  On the repository's own test tree for
collapse_single_pages (test_get_pages_from_directory_collapse_single_pages,
which expects the child document to be re-parented to "parent" and no child
folder page), the walk raises KeyError: line 264 of document.py reads
folder_data[current_path]["parent_title"], but folder_data entries only
ever hold the keys n_files and title (lines 154 and 216). -/
theorem C2_collapse_single_keyerror :
    get_pages_from_directory c2Tree ⟨true, false, false, false, false⟩ noIgnore
      = .error "KeyError: parent_title" := by
  rfl

/-! ## Claim C5 — code bug -/

/-- C5, code-bug evaluation.  A plain document that cannot be read is
skipped and the walk continues (document.py lines 259-260), but an
unreadable directory-content file aborts the whole walk: line 139 sets
file_path on the None returned by get_page_data_from_file_path, raising
AttributeError. -/
theorem C5_dir_content_read_failure_aborts :
    get_pages_from_directory c5Tree defaultWalkOptions noIgnore
      = .error "AttributeError: NoneType object has no attribute file_path" ∧
    get_pages_from_directory c5PlainTree defaultWalkOptions noIgnore
      = .ok [mkWalkPage (some "good") none ""
          (some (.absolute ["root", "good.md"])) none] := by
  exact ⟨rfl, rfl⟩

/-- Evaluation shape of get_document_frontmatter as a single case split. -/
theorem get_document_frontmatter_eq (yaml : YamlLoader) (lines : List String) :
    get_document_frontmatter yaml lines =
      (if (scanFrontmatter lines).1 ≠ "" ∧ (scanFrontmatter lines).2 ≠ 0 then
        match yaml (scanFrontmatter lines).1 with
        | .ok (some (.map kvs)) => .ok ⟨kvs, some (scanFrontmatter lines).2⟩
        | .otherError e => .error e
        | _ => .ok FrontmatterDict.empty
      else .ok FrontmatterDict.empty) := by
  simp only [get_document_frontmatter]
  by_cases hc : (scanFrontmatter lines).1 ≠ "" ∧ (scanFrontmatter lines).2 ≠ 0
  · rw [if_pos hc, if_pos hc]
    cases yaml (scanFrontmatter lines).1 with
    | ok v =>
      match v with
      | some (.map kvs) => rfl
      | some (.scalar sv) => rfl
      | some (.seq items) => rfl
      | none => rfl
    | parserError => rfl
    | otherError e => rfl
  · rw [if_neg hc, if_neg hc]


/-! ## Claim C9 — corrected -/

/-- Loader modelling PyYAML on the document "a: b: c": a second mapping
colon on one line raises yaml.scanner.ScannerError ("mapping values are not
allowed here"), which is not a ParserError. -/
def scannerLoader : YamlLoader := fun s =>
  if s = "a: b: c\n" then .otherError "ScannerError" else .ok none

def c9CexLines : List String := ["---\n", "a: b: c\n", "---\n"]

/-- C9, counterexample.  The frontmatter block encloses malformed YAML that
raises ScannerError rather than ParserError; document.py catches only
ParserError (line 581), so get_document_frontmatter raises instead of
returning the empty dict. -/
theorem C9_counterexample_scanner_error :
    get_document_frontmatter scannerLoader c9CexLines = .error "ScannerError" ∧
    get_document_frontmatter scannerLoader c9CexLines ≠ .ok FrontmatterDict.empty := by
  have h1 : get_document_frontmatter scannerLoader c9CexLines = .error "ScannerError" := rfl
  exact ⟨h1, by rw [h1]; intro h; exact Except.noConfusion h⟩

/-- C9, amended.  Malformed frontmatter YAML that raises the parser error
class is silently treated as no frontmatter: the empty dict is returned and
no exception escapes. -/
theorem C9_parser_errors_swallowed (yaml : YamlLoader) (lines : List String)
    (h : yaml (scanFrontmatter lines).1 = .parserError) :
    get_document_frontmatter yaml lines = .ok FrontmatterDict.empty := by
  rw [get_document_frontmatter_eq]
  by_cases hc : (scanFrontmatter lines).1 ≠ "" ∧ (scanFrontmatter lines).2 ≠ 0
  · rw [if_pos hc, h]
  · rw [if_neg hc]

/-- C9, witness: a parser-error document inside a well-formed block. -/
theorem C9_witness :
    get_document_frontmatter (fun _ => .parserError) ["---\n", "a: [\n", "---\n"]
      = .ok FrontmatterDict.empty :=
  C9_parser_errors_swallowed (fun _ => .parserError) ["---\n", "a: [\n", "---\n"] rfl

/-! ## Claim C10 — corrected -/

theorem scanFrontmatterAux_snd_ne_zero (ls : List String) (i : Nat) (acc : String) :
    (scanFrontmatterAux ls i acc).2 ≠ 0 ↔ "---\n" ∈ ls := by
  induction ls generalizing i acc with
  | nil => simp [scanFrontmatterAux]
  | cons l ls ih =>
    by_cases hl : l = "---\n"
    · subst hl
      simp [scanFrontmatterAux]
    · simp only [scanFrontmatterAux, if_neg hl]
      rw [ih]
      simp [hl]
      intro h
      exact absurd h.symm hl

/-- The scan reports a closing line exactly when the literal first line
opens a block and a later line closes it. -/
theorem scanFrontmatter_snd_ne_zero (lines : List String) :
    (scanFrontmatter lines).2 ≠ 0 ↔ fmOpens lines ∧ fmCloses lines := by
  cases lines with
  | nil =>
    show (("", 0) : String × Nat).2 ≠ 0 ↔ _
    simp [fmOpens, fmCloses]
  | cons first rest =>
    by_cases hf : first = "---\n"
    · subst hf
      show (scanFrontmatterAux rest 0 "").2 ≠ 0 ↔ _
      rw [scanFrontmatterAux_snd_ne_zero]
      simp [fmOpens, fmCloses]
    · have hv : scanFrontmatter (first :: rest) = ("", 0) := by
        show (if first = "---\n" then scanFrontmatterAux rest 0 "" else ("", 0)) = ("", 0)
        rw [if_neg hf]
      rw [hv]
      simp [fmOpens, fmCloses, hf]

def scannerLoader2 : YamlLoader := fun s =>
  if s = "x: y: z\n" then .otherError "ScannerError" else .ok none

def c10CexLines : List String := ["---\n", "x: y: z\n", "---\n"]

/-- C10, counterexample.  The claim states that in every case other than a
successfully parsed mapping the function returns the empty dictionary; on
enclosed YAML raising a ScannerError the function raises instead of
returning anything. -/
theorem C10_counterexample_scanner_error :
    get_document_frontmatter scannerLoader2 c10CexLines = .error "ScannerError" ∧
    get_document_frontmatter scannerLoader2 c10CexLines ≠ .ok FrontmatterDict.empty := by
  have h1 : get_document_frontmatter scannerLoader2 c10CexLines = .error "ScannerError" := rfl
  exact ⟨h1, by rw [h1]; intro h; exact Except.noConfusion h⟩

/-- C10, amended.  Whenever get_document_frontmatter returns (rather than
propagating a non-parser YAML error), the result is the parsed mapping
entries plus the closing line index exactly when the literal first line is
the opening marker, some later line is the closing marker, and the enclosed
text loads as a YAML mapping; in every other returning case it is the empty
dict.  The hypothesis on the loader records that PyYAML loads the empty
document as None. -/
theorem C10_frontmatter_characterization (yaml : YamlLoader) (lines : List String)
    (fm : FrontmatterDict) (hempty : yaml "" = .ok none)
    (hrun : get_document_frontmatter yaml lines = .ok fm) :
    (fm ≠ FrontmatterDict.empty ↔
      fmOpens lines ∧ fmCloses lines ∧
      ∃ kvs, yaml (scanFrontmatter lines).1 = .ok (some (.map kvs))) ∧
    (∀ kvs, yaml (scanFrontmatter lines).1 = .ok (some (.map kvs)) →
      fmOpens lines → fmCloses lines →
      fm = ⟨kvs, some (scanFrontmatter lines).2⟩) := by
  rw [get_document_frontmatter_eq] at hrun
  by_cases hc : (scanFrontmatter lines).1 ≠ "" ∧ (scanFrontmatter lines).2 ≠ 0
  · rw [if_pos hc] at hrun
    generalize hy : yaml (scanFrontmatter lines).1 = r at hrun ⊢
    cases r with
    | ok v =>
      match v with
      | some (.map kvs) =>
        have hfm : fm = ⟨kvs, some (scanFrontmatter lines).2⟩ :=
          (Except.ok.inj hrun).symm
        subst hfm
        constructor
        · constructor
          · intro _
            have hoc := (scanFrontmatter_snd_ne_zero lines).mp hc.2
            exact ⟨hoc.1, hoc.2, kvs, rfl⟩
          · intro _ hx
            have hfe : (some (scanFrontmatter lines).2 : Option Nat) = none :=
              congrArg FrontmatterDict.frontmatterEndLine hx
            exact Option.noConfusion hfe
        · intro kvs2 hy2 _ _
          have h3 := YamlVal.map.inj (Option.some.inj (YamlResult.ok.inj hy2))
          rw [h3]
      | some (.scalar sv) =>
        have hfm : fm = FrontmatterDict.empty := (Except.ok.inj hrun).symm
        subst hfm
        refine ⟨⟨fun hne => absurd rfl hne, fun hr => ?_⟩, fun kvs2 hy2 _ _ => ?_⟩
        · obtain ⟨_, _, kvs, hk⟩ := hr
          exact YamlVal.noConfusion (Option.some.inj (YamlResult.ok.inj hk))
        · exact YamlVal.noConfusion (Option.some.inj (YamlResult.ok.inj hy2))
      | some (.seq items) =>
        have hfm : fm = FrontmatterDict.empty := (Except.ok.inj hrun).symm
        subst hfm
        refine ⟨⟨fun hne => absurd rfl hne, fun hr => ?_⟩, fun kvs2 hy2 _ _ => ?_⟩
        · obtain ⟨_, _, kvs, hk⟩ := hr
          exact YamlVal.noConfusion (Option.some.inj (YamlResult.ok.inj hk))
        · exact YamlVal.noConfusion (Option.some.inj (YamlResult.ok.inj hy2))
      | none =>
        have hfm : fm = FrontmatterDict.empty := (Except.ok.inj hrun).symm
        subst hfm
        refine ⟨⟨fun hne => absurd rfl hne, fun hr => ?_⟩, fun kvs2 hy2 _ _ => ?_⟩
        · obtain ⟨_, _, kvs, hk⟩ := hr
          exact Option.noConfusion (YamlResult.ok.inj hk)
        · exact Option.noConfusion (YamlResult.ok.inj hy2)
    | parserError =>
      have hfm : fm = FrontmatterDict.empty := (Except.ok.inj hrun).symm
      subst hfm
      refine ⟨⟨fun hne => absurd rfl hne, fun hr => ?_⟩, fun kvs2 hy2 _ _ => ?_⟩
      · obtain ⟨_, _, kvs, hk⟩ := hr
        exact YamlResult.noConfusion hk
      · exact YamlResult.noConfusion hy2
    | otherError e =>
      exact Except.noConfusion hrun
  · rw [if_neg hc] at hrun
    have hfm : fm = FrontmatterDict.empty := (Except.ok.inj hrun).symm
    subst hfm
    have hnot : ¬(fmOpens lines ∧ fmCloses lines ∧
        ∃ kvs, yaml (scanFrontmatter lines).1 = .ok (some (.map kvs))) := by
      intro hr
      obtain ⟨ho, hcl, kvs, hk⟩ := hr
      rcases Decidable.not_and_iff_or_not.mp hc with h1 | h2
      · have hy1 : (scanFrontmatter lines).1 = "" := Decidable.of_not_not h1
        rw [hy1, hempty] at hk
        exact Option.noConfusion (YamlResult.ok.inj hk)
      · exact h2 ((scanFrontmatter_snd_ne_zero lines).mpr ⟨ho, hcl⟩)
    refine ⟨⟨fun hne => absurd rfl hne, fun hr => absurd hr hnot⟩, ?_⟩
    intro kvs2 hy2 ho hcl
    exact absurd ⟨ho, hcl, kvs2, hy2⟩ hnot

/-- Loader for the C10 witness: a one-entry mapping document. -/
def c10wYaml : YamlLoader := fun s =>
  if s = "title: x\n" then .ok (some (.map [("title", .scalar "x")])) else .ok none

def c10wLines : List String := ["---\n", "title: x\n", "---\n"]

/-- C10, witness: a well-formed frontmatter block enclosing a mapping
yields the non-empty dict carrying the entries and the closing line
index. -/
theorem C10_witness :
    get_document_frontmatter c10wYaml c10wLines
        = .ok ⟨[("title", YamlVal.scalar "x")], some 3⟩ ∧
    (⟨[("title", YamlVal.scalar "x")], some 3⟩ : FrontmatterDict) ≠ FrontmatterDict.empty := by
  have hrun : get_document_frontmatter c10wYaml c10wLines
      = .ok ⟨[("title", YamlVal.scalar "x")], some 3⟩ := rfl
  refine ⟨hrun, ?_⟩
  exact (C10_frontmatter_characterization c10wYaml c10wLines _ rfl hrun).1.mpr
    ⟨rfl, by decide, [("title", YamlVal.scalar "x")], rfl⟩

/-! ## Claim C7 — attachment path resolution and missing files -/

/-- C7.  The attachment path resolution of upsert_attachment agrees with
the resolution rule as the spec words it (as-is when absolute, else
relative to the owning page source file directory, else relative to the
current working directory), and a resolved path that does not exist on the
file system yields a SKIPPED result with a None response and a reported
error, returning normally. -/
theorem C7_resolution_and_missing_file (fileSha1 : String → String)
    (fs : List String → Option String) (cwd : List String) (st : Store)
    (page : Page) (ep : RemotePage) (attachmentPath : PyPath) (message : String)
    (onlyChanged : Bool) :
    resolveAttachmentPath cwd page attachmentPath
      = specAttachmentResolution cwd page attachmentPath ∧
    (fs (resolveAttachmentPath cwd page attachmentPath) = none →
      (upsert_attachment fileSha1 fs cwd st page (some ep) attachmentPath
          message onlyChanged).action = .skipped ∧
      (upsert_attachment fileSha1 fs cwd st page (some ep) attachmentPath
          message onlyChanged).response = none ∧
      (upsert_attachment fileSha1 fs cwd st page (some ep) attachmentPath
          message onlyChanged).reports ≠ []) := by
  constructor
  · cases attachmentPath with
    | absolute cs => rfl
    | relative cs =>
      cases hfp : page.filePath with
      | some fp =>
        simp [resolveAttachmentPath, specAttachmentResolution, PyPath.isAbs,
          PyPath.compsAt, hfp]
      | none =>
        simp [resolveAttachmentPath, specAttachmentResolution, PyPath.isAbs,
          PyPath.compsAt, hfp]
  · intro hfs
    have hval : upsert_attachment fileSha1 fs cwd st page (some ep) attachmentPath
        message onlyChanged
        = { action := .skipped, response := none, store := st,
            reports := ["Error: Attachment file not found"] } := by
      simp only [upsert_attachment, hfs]
    rw [hval]
    exact ⟨rfl, rfl, by simp⟩

/-- C7, witness at a relative attachment path of a page with no source
path, on a file system with no files. -/
theorem C7_witness :
    (upsert_attachment (fun _ => "") (fun _ => none) ["cwd"] ⟨[], [], 0⟩
      (mkWalkPage none none "" none none) (some ⟨1, none, none, "", "", [], [], "page"⟩)
      (.relative ["img.png"]) "m" true).action = UpsertAction.skipped :=
  ((C7_resolution_and_missing_file (fun _ => "") (fun _ => none) ["cwd"] ⟨[], [], 0⟩
      (mkWalkPage none none "" none none) ⟨1, none, none, "", "", [], [], "page"⟩
      (.relative ["img.png"]) "m" true).2 rfl).1

/-! ## Claim C6 — attachment reconciliation outcomes -/

/-- C6.  For an attachment whose resolved file exists and a valid existing
page object: CREATED exactly when the store holds no attachment of that
filename on the page; SKIPPED exactly when one exists, only_changed is set,
and the fingerprint recovered from its revision message equals the file
hash; UPDATED in every other case. -/
theorem C6_attachment_outcomes (fileSha1 : String → String)
    (fs : List String → Option String) (cwd : List String) (st : Store)
    (page : Page) (ep : RemotePage) (attachmentPath : PyPath) (message : String)
    (onlyChanged : Bool) (content : String)
    (hfs : fs (resolveAttachmentPath cwd page attachmentPath) = some content)
    (hne : fileSha1 content ≠ "") :
    ((upsert_attachment fileSha1 fs cwd st page (some ep) attachmentPath
        message onlyChanged).action = .created ↔
      st.getAttachment ep
        ((resolveAttachmentPath cwd page attachmentPath).getLast?.getD "") = none) ∧
    ((upsert_attachment fileSha1 fs cwd st page (some ep) attachmentPath
        message onlyChanged).action = .skipped ↔
      ∃ a, st.getAttachment ep
          ((resolveAttachmentPath cwd page attachmentPath).getLast?.getD "") = some a ∧
        onlyChanged = true ∧
        contentHashSearch a.versionMessage = some (fileSha1 content)) ∧
    ((upsert_attachment fileSha1 fs cwd st page (some ep) attachmentPath
        message onlyChanged).action = .updated ↔
      ∃ a, st.getAttachment ep
          ((resolveAttachmentPath cwd page attachmentPath).getLast?.getD "") = some a ∧
        ¬(onlyChanged = true ∧
          contentHashSearch a.versionMessage = some (fileSha1 content))) := by
  cases hget : st.getAttachment ep
      ((resolveAttachmentPath cwd page attachmentPath).getLast?.getD "") with
  | none =>
    have hval : (upsert_attachment fileSha1 fs cwd st page (some ep) attachmentPath
        message onlyChanged).action = .created := by
      simp only [upsert_attachment, hfs, hget]
    refine ⟨⟨fun _ => rfl, fun _ => hval⟩, ?_, ?_⟩
    · rw [hval]
      constructor
      · intro h; exact absurd h (by simp)
      · intro h
        obtain ⟨a, ha, _⟩ := h
        exact Option.noConfusion ha
    · rw [hval]
      constructor
      · intro h; exact absurd h (by simp)
      · intro h
        obtain ⟨a, ha, _⟩ := h
        exact Option.noConfusion ha
  | some existingAtt =>
    by_cases hskip : onlyChanged = true ∧
        contentHashSearch existingAtt.versionMessage = some (fileSha1 content)
    · have hval : (upsert_attachment fileSha1 fs cwd st page (some ep) attachmentPath
          message onlyChanged).action = .skipped := by
        obtain ⟨hoc, hmatch⟩ := hskip
        subst hoc
        simp only [upsert_attachment, hfs, hget, hmatch]
        simp [hne]
      refine ⟨?_, ?_, ?_⟩
      · rw [hval]
        constructor
        · intro h; exact absurd h (by simp)
        · intro h
          exact Option.noConfusion h
      · rw [hval]
        exact ⟨fun _ => ⟨existingAtt, rfl, hskip⟩, fun _ => rfl⟩
      · rw [hval]
        constructor
        · intro h; exact absurd h (by simp)
        · intro h
          obtain ⟨a, ha, hnm⟩ := h
          have hae := Option.some.inj ha
          subst hae
          exact absurd hskip hnm
    · have hval : (upsert_attachment fileSha1 fs cwd st page (some ep) attachmentPath
          message onlyChanged).action = .updated := by
        cases hoc : onlyChanged with
        | false =>
          simp only [upsert_attachment, hfs, hget]
          simp
        | true =>
          have hmm : ¬contentHashSearch existingAtt.versionMessage
              = some (fileSha1 content) := by
            intro hx; exact hskip ⟨hoc, hx⟩
          simp only [upsert_attachment, hfs, hget]
          cases hsearch : contentHashSearch existingAtt.versionMessage with
          | none => simp [hne, hsearch]
          | some oh =>
            have hohne : oh ≠ fileSha1 content := by
              intro hx; rw [hsearch, hx] at hmm; exact hmm rfl
            simp [hne, hsearch, hohne]
      refine ⟨?_, ?_, ?_⟩
      · rw [hval]
        constructor
        · intro h; exact absurd h (by simp)
        · intro h
          exact Option.noConfusion h
      · rw [hval]
        constructor
        · intro h; exact absurd h (by simp)
        · intro h
          obtain ⟨a, ha, hoc, hm⟩ := h
          have hae := Option.some.inj ha
          subst hae
          exact absurd ⟨hoc, hm⟩ hskip
      · rw [hval]
        exact ⟨fun _ => ⟨existingAtt, rfl, hskip⟩, fun _ => rfl⟩

/-! ## Run-shape lemmas for upsert_page -/

theorem upsert_page_run_existing (hash : String → String) (st : Store)
    (message : String) (page : Page) (oc rl me : Bool) (rp : Page) (ep : RemotePage)
    (hres : resolveParent st page = .ok rp)
    (hex : st.getPage page.title page.space page.pageId = some ep) :
    upsert_page hash st message page oc rl me
      = .ok (upsertExisting hash st message rp ep oc rl me) := by
  simp only [upsert_page, hres, hex]

theorem upsert_page_run_create (hash : String → String) (st : Store)
    (message : String) (page : Page) (oc rl me : Bool) (rp : Page)
    (hres : resolveParent st page = .ok rp)
    (hex : st.getPage page.title page.space page.pageId = none) :
    upsert_page hash st message page oc rl me
      = .ok (upsertCreate hash st message rp oc) := by
  simp only [upsert_page, hres, hex]

theorem upsertExisting_action (hash : String → String) (st : Store)
    (message : String) (page : Page) (ep : RemotePage) (oc rl me : Bool) :
    (upsertExisting hash st message page ep oc rl me).action
      = if !oc || page_needs_updating hash page ep rl then .updated else .skipped := by
  cases h : (!oc || page_needs_updating hash page ep rl) <;>
    simp [upsertExisting, h]

theorem upsertExisting_response (hash : String → String) (st : Store)
    (message : String) (page : Page) (ep : RemotePage) (oc rl me : Bool) :
    (upsertExisting hash st message page ep oc rl me).response
      = if !oc || page_needs_updating hash page ep rl then
          (st.updatePage ep page.body page.parentId
            (composeMessage hash oc message page)
            (if rl then page.labels else none) me).1
        else ep := by
  cases h : (!oc || page_needs_updating hash page ep rl) <;>
    simp [upsertExisting, h]

/-! ## Claim C4 — fingerprint skip condition -/

theorem hashOrLabelsCheck_eq (hash : String → String) (page : Page)
    (ep : RemotePage) (rl : Bool)
    (hrl : rl = false ∨ labels_need_updating page ep = false) :
    hashOrLabelsCheck hash page ep rl
      = (match contentHashSearch ep.versionMessage with
         | some h0 => !(h0 == page.get_content_hash hash)
         | none => true) := by
  unfold hashOrLabelsCheck
  have hcond : (rl && labels_need_updating page ep) = false := by
    rcases hrl with h | h <;> simp [h]
  rw [hcond]
  simp

theorem page_needs_updating_eq (hash : String → String) (page : Page)
    (ep : RemotePage) (rl : Bool)
    (hs1 : page.parentId = none → ep.ancestors = [])
    (hs2 : ∀ p, page.parentId = some p →
      ep.ancestors ≠ [] ∧ ep.ancestors.getLast? = some p) :
    page_needs_updating hash page ep rl = hashOrLabelsCheck hash page ep rl := by
  unfold page_needs_updating
  cases hpid : page.parentId with
  | none =>
    rw [if_neg]
    intro hcontra
    exact hcontra (hs1 hpid)
  | some p =>
    obtain ⟨ha, hb⟩ := hs2 p hpid
    show (if ep.ancestors = [] ∨ ep.ancestors.getLast? ≠ some p then true
      else hashOrLabelsCheck hash page ep rl) = hashOrLabelsCheck hash page ep rl
    rw [if_neg]
    intro hcontra
    rcases hcontra with h | h
    · exact ha h
    · exact h hb

/-- C4, amended.  With only_changed enabled, an existing remote page, no
structural parent condition and no label-replacement condition, upsert_page
returns SKIPPED exactly when the fingerprint recovered by
CONTENT_HASH_REGEX from the remote revision message (the token at the end
of the message, optionally followed by one trailing newline, which the
Python dollar anchor also accepts) equals the sha1 fingerprint of the
descriptor body; a message carrying no recoverable token forces UPDATE. -/
theorem C4_skip_iff_fingerprint_match (hash : String → String) (st : Store)
    (message : String) (page rp : Page) (ep : RemotePage) (rl me : Bool)
    (out : UpsertPageResult)
    (hres : resolveParent st page = .ok rp)
    (hex : st.getPage page.title page.space page.pageId = some ep)
    (hs1 : rp.parentId = none → ep.ancestors = [])
    (hs2 : ∀ p, rp.parentId = some p →
      ep.ancestors ≠ [] ∧ ep.ancestors.getLast? = some p)
    (hrl : rl = false ∨ labels_need_updating rp ep = false)
    (hrun : upsert_page hash st message page true rl me = .ok out) :
    out.action = .skipped ↔
      contentHashSearch ep.versionMessage = some (hash page.body) := by
  have heq := upsert_page_run_existing hash st message page true rl me rp ep hres hex
  rw [heq] at hrun
  have hout : out = upsertExisting hash st message rp ep true rl me :=
    (Except.ok.inj hrun).symm
  subst hout
  rw [upsertExisting_action]
  have hbody : rp.body = page.body := (resolveParent_fields st page rp hres).2.1
  rw [page_needs_updating_eq hash rp ep rl hs1 hs2,
    hashOrLabelsCheck_eq hash rp ep rl hrl]
  cases hsearch : contentHashSearch ep.versionMessage with
  | none =>
    simp only [hsearch]
    constructor
    · intro hcontra
      simp at hcontra
    · intro hcontra
      exact absurd hcontra (by simp)
  | some h0 =>
    simp only [hsearch]
    unfold Page.get_content_hash
    rw [hbody]
    by_cases hz : h0 = hash page.body
    · subst hz
      simp
    · have hbeq : (h0 == hash page.body) = false := by simp [hz]
      simp [hbeq, hz]

/-- The sha1 collaborator pinned by the repository's own unit test
test_page_get_content_hash: sha1("test content") =
1eebdf4fdc9fc7bf283031b93f9aef3338de9052. -/
def sha1TestContent : String := "1eebdf4fdc9fc7bf283031b93f9aef3338de9052"

def testHash : String → String := fun s =>
  if s = "test content" then sha1TestContent
  else "0000000000000000000000000000000000000000"

def c4CexMsg : String := "[v" ++ sha1TestContent ++ "]\n"

def c4CexRemote : RemotePage :=
  ⟨1, some "t", none, "test content", c4CexMsg, [], [], "page"⟩

def c4CexStore : Store := ⟨[c4CexRemote], [], 2⟩

def c4CexPage : Page := mkWalkPage (some "t") none "test content" none none

/-- C4, counterexample.  A remote revision message that carries the token
followed by one newline does not end with the token, yet the Python dollar
anchor accepts it, so the run is SKIPPED where the claim (anchored to the
very end of the string) requires UPDATE. -/
theorem C4_counterexample_trailing_newline :
    (upsert_page testHash c4CexStore "" c4CexPage true false false).map (·.action)
      = .ok .skipped ∧
    specFingerprintAtEnd c4CexMsg = none := by
  exact ⟨rfl, rfl⟩

def c4wMsg : String := "[v" ++ sha1TestContent ++ "]"

def c4wRemote : RemotePage :=
  ⟨1, some "t", none, "test content", c4wMsg, [], [], "page"⟩

def c4wStore : Store := ⟨[c4wRemote], [], 2⟩

def junkResult : UpsertPageResult :=
  ⟨.updated, ⟨0, none, none, "", "", [], [], ""⟩, ⟨[], [], 0⟩,
    mkWalkPage none none "" none none, none⟩

def c4wOut : UpsertPageResult :=
  match upsert_page testHash c4wStore "" c4CexPage true false false with
  | .ok r => r
  | .error _ => junkResult

/-- C4, witness: an unchanged page whose remote message ends with the
matching token is skipped. -/
theorem C4_witness : c4wOut.action = UpsertAction.skipped := by
  have hrun : upsert_page testHash c4wStore "" c4CexPage true false false
      = .ok c4wOut := rfl
  exact (C4_skip_iff_fingerprint_match testHash c4wStore "" c4CexPage c4CexPage
    c4wRemote false false c4wOut rfl rfl (fun _ => rfl)
    (fun p hp => Option.noConfusion hp) (Or.inl rfl) hrun).mpr rfl

/-! ## Claim C8 — additive label call -/

theorem mem_replaceById (l : List RemotePage) (target : Nat) (up : RemotePage)
    (rp2 : RemotePage)
    (h : rp2 ∈ l.map (fun q => if q.id == target then up else q)) :
    rp2 = up ∨ rp2.id ≠ target := by
  obtain ⟨q, hq, hfq⟩ := List.mem_map.mp h
  by_cases hid : (q.id == target) = true
  · left
    rw [if_pos hid] at hfq
    exact hfq.symm
  · right
    rw [if_neg hid] at hfq
    subst hfq
    intro hc
    exact hid (by simp [hc])

/-- C8, amended.  When full label replacement is off, the remote page
exists, and the descriptor carries a non-empty label list, upsert_page
issues the separate additive add_labels call after the body decision
exactly when the sorted descriptor labels differ from the sorted remote
labels (a sorted-list, i.e. multiset, comparison — not a set comparison);
the body call itself leaves the remote labels untouched, and when the
additive call is issued, every label the remote already had is still
present on the page afterwards.  The decision is the same whether the body
was updated or skipped. -/
theorem C8_additive_label_call (hash : String → String) (st : Store)
    (message : String) (page rp : Page) (ep : RemotePage) (oc me : Bool)
    (ls : List String) (out : UpsertPageResult)
    (hres : resolveParent st page = .ok rp)
    (hex : st.getPage page.title page.space page.pageId = some ep)
    (hlab : page.labels = some ls) (hne : ls ≠ [])
    (hrun : upsert_page hash st message page oc false me = .ok out) :
    (out.addedLabels
      = if sortStrings ep.labels == sortStrings ls then none else some ls) ∧
    out.response.labels = ep.labels ∧
    (out.addedLabels = some ls →
      ∀ rp2 ∈ out.store.pages, rp2.id = ep.id → ∀ l ∈ ep.labels, l ∈ rp2.labels) := by
  have heq := upsert_page_run_existing hash st message page oc false me rp ep hres hex
  rw [heq] at hrun
  have hout : out = upsertExisting hash st message rp ep oc false me :=
    (Except.ok.inj hrun).symm
  subst hout
  have hrlab : rp.labels = some ls := by
    rw [(resolveParent_fields st page rp hres).2.2.1, hlab]
  have htruthy : pageLabelsTruthy rp = true := by
    unfold pageLabelsTruthy
    rw [hrlab]
    cases ls with
    | nil => exact absurd rfl hne
    | cons a as => rfl
  unfold upsertExisting
  simp only [Bool.false_eq_true, if_false]
  cases hcond : (!oc || page_needs_updating hash rp ep false) with
  | true =>
    simp only [hcond]
    have hupd : (st.updatePage ep rp.body rp.parentId
        (composeMessage hash oc message rp) none me).1.labels = ep.labels := rfl
    have hupdid : (st.updatePage ep rp.body rp.parentId
        (composeMessage hash oc message rp) none me).1.id = ep.id := rfl
    have hln : labels_need_updating rp (st.updatePage ep rp.body rp.parentId
        (composeMessage hash oc message rp) none me).1
        = !(sortStrings ep.labels == sortStrings ls) := by
      unfold labels_need_updating
      rw [hrlab, hupd]
    simp only [Bool.not_false, Bool.true_and, htruthy, hln, hrlab, if_true]
    cases hsort : (sortStrings ep.labels == sortStrings ls) with
    | true =>
      simp only [hsort, Bool.not_true, Bool.and_false, if_false]
      exact ⟨rfl, hupd, fun hcontra => Option.noConfusion hcontra⟩
    | false =>
      simp only [hsort, Bool.not_false, Bool.and_true, if_true]
      refine ⟨rfl, hupd, fun _ => ?_⟩
      intro rp2 hmem hid l hl
      have hmem2 := hmem
      simp only [Store.addLabels] at hmem2
      rcases mem_replaceById _ _ _ rp2 hmem2 with hcase | hcase
      · rw [hcase]
        show l ∈ (st.updatePage ep rp.body rp.parentId
          (composeMessage hash oc message rp) none me).1.labels ++ _
        rw [hupd]
        exact List.mem_append_left _ hl
      · rw [hupdid] at hcase
        exact absurd hid hcase
  | false =>
    simp only [Bool.false_eq_true, if_false]
    have hln : labels_need_updating rp ep
        = !(sortStrings ep.labels == sortStrings ls) := by
      unfold labels_need_updating
      rw [hrlab]
    simp only [Bool.not_false, Bool.true_and, htruthy, hln, hrlab, if_false]
    cases hsort : (sortStrings ep.labels == sortStrings ls) with
    | true =>
      simp only [hsort, Bool.not_true, Bool.and_false, if_false]
      refine ⟨by trivial, by trivial, fun hcontra => Option.noConfusion hcontra⟩
    | false =>
      simp only [hsort, Bool.not_false, Bool.and_true, if_true]
      refine ⟨by trivial, by trivial, fun _ => ?_⟩
      intro rp2 hmem hid l hl
      have hmem2 := hmem
      simp only [Store.addLabels] at hmem2
      rcases mem_replaceById _ _ _ rp2 hmem2 with hcase | hcase
      · rw [hcase]
        exact List.mem_append_left _ hl
      · exact absurd hid hcase

def c8Remote : RemotePage := ⟨1, some "t", none, "B", "", [], ["a"], "page"⟩

def c8Store : Store := ⟨[c8Remote], [], 2⟩

def c8Page : Page := mkWalkPage (some "t") none "B" none (some ["a", "a"])

def c8Out : UpsertPageResult :=
  match upsert_page testHash c8Store "" c8Page false false false with
  | .ok r => r
  | .error _ => junkResult

/-- C8, counterexample.  Descriptor labels [a, a] and remote labels [a] are
equal as sets, so the claim says no additive label call is issued; the code
compares sorted lists, finds them different, and issues the call. -/
theorem C8_counterexample_duplicate_labels :
    c8Out.addedLabels = some ["a", "a"] ∧
    ((["a", "a"] : List String).all (fun x => c8Remote.labels.contains x)
      && c8Remote.labels.all (fun x => (["a", "a"] : List String).contains x))
      = true := by
  exact ⟨rfl, rfl⟩

def c8wRemote : RemotePage := ⟨1, some "t", none, "B", "", [], ["x"], "page"⟩

def c8wStore : Store := ⟨[c8wRemote], [], 2⟩

def c8wPage : Page := mkWalkPage (some "t") none "B" none (some ["y"])

def c8wOut : UpsertPageResult :=
  match upsert_page testHash c8wStore "" c8wPage false false false with
  | .ok r => r
  | .error _ => junkResult

/-- C8, witness: differing sorted labels make the additive call carry the
descriptor labels. -/
theorem C8_witness : c8wOut.addedLabels = some ["y"] := by
  have hrun : upsert_page testHash c8wStore "" c8wPage false false false
      = .ok c8wOut := rfl
  have h := (C8_additive_label_call testHash c8wStore "" c8wPage c8wPage c8wRemote
    false false ["y"] c8wOut rfl rfl rfl (by simp) hrun).1
  rw [h]
  rfl

def c6wSha : String → String := fun _ => sha1TestContent

def c6wAtt : RemoteAttachment := ⟨"img.png", "[v" ++ sha1TestContent ++ "]", "DATA"⟩

def c6wRemotePage : RemotePage := ⟨1, some "t", none, "", "", [], [], "page"⟩

def c6wStore : Store := ⟨[c6wRemotePage], [(1, c6wAtt)], 2⟩

def c6wFs : List String → Option String := fun p =>
  if p = ["cwd", "img.png"] then some "DATA" else none

def c6wPage : Page := mkWalkPage none none "" none none

/-- C6, witness: an existing attachment with a matching fingerprint under
only_changed is skipped. -/
theorem C6_witness :
    (upsert_attachment c6wSha c6wFs ["cwd"] c6wStore c6wPage (some c6wRemotePage)
      (.relative ["img.png"]) "m" true).action = UpsertAction.skipped :=
  (C6_attachment_outcomes c6wSha c6wFs ["cwd"] c6wStore c6wPage c6wRemotePage
    (.relative ["img.png"]) "m" true "DATA" rfl (by decide)).2.1.mpr
    ⟨c6wAtt, rfl, rfl, rfl⟩

/-! ## Claim C3 — create-then-skip idempotence -/

theorem upsert_page_run_error (hash : String → String) (st : Store)
    (message : String) (page : Page) (oc rl me : Bool) (e : String)
    (hres : resolveParent st page = .error e) :
    upsert_page hash st message page oc rl me = .error e := by
  simp only [upsert_page, hres]

theorem find?_append_of_none {α : Type} (p : α → Bool) (l1 l2 : List α)
    (h : l1.find? p = none) : (l1 ++ l2).find? p = l2.find? p := by
  induction l1 with
  | nil => rfl
  | cons a l ih =>
    by_cases hp : p a = true
    · rw [List.find?_cons_of_pos _ hp] at h
      exact Option.noConfusion h
    · rw [List.find?_cons_of_neg _ hp] at h
      show ((a :: (l ++ l2)).find? p) = l2.find? p
      rw [List.find?_cons_of_neg _ hp]
      exact ih h

/-- The composed only_changed revision message always yields its own
fingerprint back through CONTENT_HASH_REGEX. -/
theorem composeMessage_search (hash : String → String) (message : String)
    (rp : Page) (hh : isHex40 (hash rp.body) = true) :
    contentHashSearch (composeMessage hash true message rp)
      = some (hash rp.body) := by
  unfold composeMessage Page.get_content_hash
  rw [if_pos rfl]
  by_cases hm : message ≠ ""
  · rw [if_pos hm]
    have hshape : message ++ " [v" ++ hash rp.body ++ "]"
        = (message ++ " ") ++ "[v" ++ hash rp.body ++ "]" := by
      have : message ++ " [v" = (message ++ " ") ++ "[v" := by
        rw [String.append_assoc]
        rfl
      rw [this]
    rw [hshape]
    exact contentHashSearch_append (message ++ " ") (hash rp.body) hh
  · rw [if_neg hm]
    have hshape : ("[v" : String) ++ hash rp.body ++ "]"
        = ("" : String) ++ "[v" ++ hash rp.body ++ "]" := by
      rfl
    rw [hshape]
    exact contentHashSearch_append "" (hash rp.body) hh

/-- C3, amended.  For a descriptor without an explicit page_id, if the
first run against the spec-modelled store creates the page (with
only_changed enabled), then a second run with the same inputs against the
resulting store finds the created page, recovers the fingerprint from the
stored revision message, and returns SKIPPED — never UPDATED. -/
theorem C3_create_then_skip (hash : String → String) (st : Store)
    (message : String) (page : Page) (rl me : Bool) (out1 : UpsertPageResult)
    (hhx : isHex40 (hash page.body) = true)
    (hid : page.pageId = none)
    (hrun1 : upsert_page hash st message page true rl me = .ok out1)
    (hact1 : out1.action = .created) :
    ∃ out2, upsert_page hash out1.store message out1.page true rl me = .ok out2
      ∧ out2.action = .skipped := by
  cases hres : resolveParent st page with
  | error e =>
    rw [upsert_page_run_error hash st message page true rl me e hres] at hrun1
    exact Except.noConfusion hrun1
  | ok rp =>
    have hfields := resolveParent_fields st page rp hres
    have hbody : rp.body = page.body := hfields.2.1
    cases hex : st.getPage page.title page.space page.pageId with
    | some ep =>
      rw [upsert_page_run_existing hash st message page true rl me rp ep hres hex]
        at hrun1
      have hout : out1 = upsertExisting hash st message rp ep true rl me :=
        (Except.ok.inj hrun1).symm
      subst hout
      rw [upsertExisting_action] at hact1
      cases hcond : (!true || page_needs_updating hash rp ep rl) with
      | true => rw [hcond] at hact1; simp at hact1
      | false => rw [hcond] at hact1; simp at hact1
    | none =>
      rw [upsert_page_run_create hash st message page true rl me rp hres hex] at hrun1
      have hout : out1 = upsertCreate hash st message rp true :=
        (Except.ok.inj hrun1).symm
      subst hout
      have hpid : rp.pageId = none := by rw [hfields.2.2.2.2.1, hid]
      have hti : rp.title = page.title := hfields.1
      have hsp : rp.space = page.space := hfields.2.2.2.1
      have hex2 : (upsertCreate hash st message rp true).store.getPage
          rp.title rp.space rp.pageId
          = some (st.createPage rp.space rp.title rp.body rp.contentType
              rp.parentId (composeMessage hash true message rp) rp.labels).1 := by
        show Store.getPage _ rp.title rp.space rp.pageId = _
        rw [hpid]
        unfold Store.getPage
        show ((st.pages ++ [_]).find? _) = _
        have hnone : st.pages.find?
            (fun rp0 => rp0.title == rp.title && rp0.space == rp.space) = none := by
          rw [hti, hsp]
          have := hex
          unfold Store.getPage at this
          rw [hid] at this
          exact this
        rw [find?_append_of_none _ _ _ hnone]
        rw [List.find?_cons_of_pos]
        · rfl
        · simp [Store.createPage]
      have hres2 := resolveParent_idem st page rp hres
        (upsertCreate hash st message rp true).store
      have hrun2 := upsert_page_run_existing hash
        (upsertCreate hash st message rp true).store message rp true rl me rp
        (st.createPage rp.space rp.title rp.body rp.contentType rp.parentId
          (composeMessage hash true message rp) rp.labels).1
        hres2 hex2
      refine ⟨_, hrun2, ?_⟩
      rw [upsertExisting_action]
      have hs1 : rp.parentId = none →
          (st.createPage rp.space rp.title rp.body rp.contentType rp.parentId
            (composeMessage hash true message rp) rp.labels).1.ancestors = [] := by
        intro hp
        show (match rp.parentId with | some p => [p] | none => ([] : List Nat)) = []
        rw [hp]
      have hs2 : ∀ p, rp.parentId = some p →
          (st.createPage rp.space rp.title rp.body rp.contentType rp.parentId
            (composeMessage hash true message rp) rp.labels).1.ancestors ≠ [] ∧
          (st.createPage rp.space rp.title rp.body rp.contentType rp.parentId
            (composeMessage hash true message rp) rp.labels).1.ancestors.getLast?
            = some p := by
        intro p hp
        constructor
        · show (match rp.parentId with | some p => [p] | none => ([] : List Nat)) ≠ []
          rw [hp]
          simp
        · show (match rp.parentId with | some p => [p] | none => ([] : List Nat)).getLast?
            = some p
          rw [hp]
          rfl
      have hrl : rl = false ∨ labels_need_updating rp
          (st.createPage rp.space rp.title rp.body rp.contentType rp.parentId
            (composeMessage hash true message rp) rp.labels).1 = false := by
        right
        unfold labels_need_updating
        cases hl : rp.labels with
        | none => rfl
        | some ls =>
          show (!(sortStrings ls == sortStrings ls)) = false
          simp
      have hneeds : page_needs_updating hash rp
          (st.createPage rp.space rp.title rp.body rp.contentType rp.parentId
            (composeMessage hash true message rp) rp.labels).1 rl = false := by
        rw [page_needs_updating_eq _ _ _ _ hs1 hs2, hashOrLabelsCheck_eq _ _ _ _ hrl]
        have hmsg : (st.createPage rp.space rp.title rp.body rp.contentType
            rp.parentId (composeMessage hash true message rp) rp.labels).1.versionMessage
            = composeMessage hash true message rp := rfl
        rw [hmsg, composeMessage_search hash message rp (by rw [hbody]; exact hhx)]
        unfold Page.get_content_hash
        simp
      rw [hneeds]
      simp

def c3CexPage : Page :=
  { mkWalkPage (some "t") none "test content" none none with pageId := some 99 }

def c3CexStore : Store := ⟨[], [], 1⟩

def c3CexOut1 : UpsertPageResult :=
  match upsert_page testHash c3CexStore "" c3CexPage true false false with
  | .ok r => r
  | .error _ => junkResult

/-- C3, counterexample.  A descriptor carrying an explicit page_id that
refers to no stored page makes both runs miss the lookup (findPage by
explicit id per the spec contract), so the second run is CREATED again
rather than SKIPPED even though the store faithfully kept everything the
first run wrote. -/
theorem C3_counterexample_stale_page_id :
    c3CexOut1.action = .created ∧
    (upsert_page testHash c3CexOut1.store "" c3CexOut1.page true false false).map
        (·.action) = .ok .created := by
  exact ⟨rfl, rfl⟩

def c3wPage : Page := mkWalkPage (some "t") none "test content" none none

def c3wOut1 : UpsertPageResult :=
  match upsert_page testHash c3CexStore "" c3wPage true false false with
  | .ok r => r
  | .error _ => junkResult

/-- C3, witness: a fresh page without explicit page_id is created and then
skipped. -/
theorem C3_witness :
    ∃ out2, upsert_page testHash c3wOut1.store "" c3wOut1.page true false false
      = .ok out2 ∧ out2.action = .skipped :=
  C3_create_then_skip testHash c3CexStore "" c3wPage false false c3wOut1
    (by decide) rfl rfl rfl

/-! ## Claim C1 — amended topological-order invariant

Machinery: well-formed trees (distinct sibling directory names), path
resolution inside the tree, and the walk invariant. -/

/-- Distinct sibling directory names. -/
def namesNodup : List DirTree → Bool
  | [] => true
  | t :: ts => !(ts.any (fun u => u.name == t.name)) && namesNodup ts

mutual

/-- Well-formed directory tree: every directory has distinct subdirectory
names (true of any real file system). -/
def dirWF : DirTree → Bool
  | .node _ _ ds => namesNodup ds && forestWF ds

def forestWF : List DirTree → Bool
  | [] => true
  | t :: ts => dirWF t && forestWF ts

end

def findSubdir (ds : List DirTree) (n : String) : Option DirTree :=
  ds.find? (fun t => t.name == n)

/-- Resolve a path suffix below a node. -/
def nodeGo : DirTree → List String → Option DirTree
  | t, [] => some t
  | t, n :: rest =>
    match findSubdir t.subdirs n with
    | some c => nodeGo c rest
    | none => none

/-- Resolve an absolute walk path (starting with the root name) to the
tree node it denotes. -/
def nodeAt? (tree : DirTree) : List String → Option DirTree
  | [] => none
  | n :: rest => if tree.name = n then nodeGo tree rest else none

/-- Titles of the emitted pages, in order. -/
def pageTitles (pages : List Page) : List String :=
  pages.filterMap (fun p => p.title)

/-- Folder-data part of the walk invariant: every recorded folder title was
either emitted, or belongs to an unreferencable entry — a document-less
non-root directory that is skipped by find_non_empty_parent_path (under
skip_empty) or has no subdirectories (so no later directory looks it up as
immediate parent). -/
def InvB (tree : DirTree) (basePath : List String) (skipEmpty : Bool)
    (st : WalkState) : Prop :=
  ∀ p info, fdLookup st.folderData p = some info → ∀ t, info.title = some t →
    t ∈ pageTitles st.pages ∨
    (info.nFiles = 0 ∧ p ≠ basePath ∧
      (skipEmpty = true ∨ ∃ m, nodeAt? tree p = some m ∧ m.subdirs = []))

def InvOK (tree : DirTree) (basePath : List String) (skipEmpty : Bool)
    (st : WalkState) : Prop :=
  topoOk st.pages = true ∧ InvB tree basePath skipEmpty st

theorem pageTitles_append (ps qs : List Page) :
    pageTitles (ps ++ qs) = pageTitles ps ++ pageTitles qs := by
  unfold pageTitles
  rw [List.filterMap_append]

theorem mem_pageTitles_snoc (ps : List Page) (pg : Page) (t : String) :
    t ∈ pageTitles (ps ++ [pg]) ↔ t ∈ pageTitles ps ∨ pg.title = some t := by
  rw [pageTitles_append, List.mem_append]
  constructor
  · intro h
    rcases h with h | h
    · exact Or.inl h
    · right
      unfold pageTitles at h
      cases hpt : pg.title with
      | none => rw [List.filterMap_cons, hpt] at h; simp at h
      | some t2 =>
        rw [List.filterMap_cons, hpt] at h
        simp at h
        subst h
        rfl
  · intro h
    rcases h with h | h
    · exact Or.inl h
    · right
      unfold pageTitles
      rw [List.filterMap_cons, h]
      simp

theorem topoOkAux_snoc (ps : List Page) (seen : List String) (pg : Page) :
    topoOkAux seen (ps ++ [pg])
      = (topoOkAux seen ps &&
          (match pg.parentTitle with
           | none => true
           | some t => (seen ++ pageTitles ps).contains t)) := by
  induction ps generalizing seen with
  | nil =>
    show topoOkAux seen [pg] = _
    cases hpt : pg.parentTitle with
    | none => simp [topoOkAux, pageTitles, hpt]
    | some t => simp [topoOkAux, pageTitles, hpt]
  | cons p ps ih =>
    show (_ && topoOkAux _ (ps ++ [pg])) = _
    rw [ih]
    have hacc : (seen ++ (match p.title with | some t => [t] | none => []))
        ++ pageTitles ps = seen ++ pageTitles (p :: ps) := by
      unfold pageTitles
      rw [List.filterMap_cons]
      cases hpt : p.title with
      | none => simp
      | some t => simp
    rw [hacc]
    cases hcheck : (match p.parentTitle with
      | none => true
      | some t => seen.contains t) <;>
      cases h2 : topoOkAux (seen ++ (match p.title with | some t => [t] | none => []))
        ps <;> simp_all [topoOkAux]

theorem topoOk_snoc (ps : List Page) (pg : Page) :
    topoOk (ps ++ [pg]) = true ↔
      topoOk ps = true ∧
        (pg.parentTitle = none ∨
          ∃ t, pg.parentTitle = some t ∧ t ∈ pageTitles ps) := by
  unfold topoOk
  rw [topoOkAux_snoc]
  rw [Bool.and_eq_true]
  constructor
  · intro ⟨h1, h2⟩
    refine ⟨h1, ?_⟩
    cases hpt : pg.parentTitle with
    | none => exact Or.inl rfl
    | some t =>
      right
      rw [hpt] at h2
      refine ⟨t, rfl, ?_⟩
      simpa using h2
  · intro ⟨h1, h2⟩
    refine ⟨h1, ?_⟩
    rcases h2 with h2 | ⟨t, hpt, hmem⟩
    · rw [h2]
    · rw [hpt]
      simpa using hmem

theorem fdLookup_filter_ne (fd : List (List String × FolderInfo))
    (p p2 : List String) (hne : p2 ≠ p) :
    fdLookup (fd.filter (fun e => !(e.1 == p))) p2 = fdLookup fd p2 := by
  induction fd with
  | nil => rfl
  | cons e fd ih =>
    by_cases he : e.1 = p
    · have hne2 : (e.1 == p2) = false := by
        simp [he]
        intro hc
        exact hne hc.symm
      rw [List.filter_cons]
      simp only [he, beq_self_eq_true, Bool.not_true]
      rw [if_neg (by simp)]
      rw [ih]
      unfold fdLookup
      simp only [List.find?, hne2]
    · have hb : (e.1 == p) = false := by simpa using he
      rw [List.filter_cons]
      simp only [hb, Bool.not_false, if_true]
      unfold fdLookup
      by_cases hm : (e.1 == p2) = true
      · simp only [List.find?, hm]
      · have hm2 : (e.1 == p2) = false := by simpa using hm
        simp only [List.find?, hm2]
        exact ih

theorem fdLookup_insert (fd : List (List String × FolderInfo))
    (p p2 : List String) (info : FolderInfo) :
    fdLookup (fdInsert fd p info) p2
      = if p2 = p then some info else fdLookup fd p2 := by
  unfold fdInsert
  by_cases h : p2 = p
  · rw [if_pos h]
    have hb : (p == p2) = true := by simp [h]
    show fdLookup ((p, info) :: _) p2 = some info
    unfold fdLookup
    simp only [List.find?, hb]
    rfl
  · rw [if_neg h]
    have hb : (p == p2) = false := by
      simp
      intro hc
      exact h hc.symm
    show fdLookup ((p, info) :: _) p2 = _
    unfold fdLookup
    simp only [List.find?, hb]
    exact fdLookup_filter_ne fd p p2 h

theorem pathParents_length (q par : List String) (h : par ∈ pathParents q) :
    par.length < q.length := by
  unfold pathParents at h
  rw [List.mem_reverse, List.mem_map] at h
  obtain ⟨k, hk, hpar⟩ := h
  rw [List.mem_range] at hk
  rw [← hpar, List.length_take]
  omega

theorem get_page_data_shape (q : List String) (f : FileNode) (pd : Page)
    (h : get_page_data_from_file_path q f = some pd) :
    (∃ tt, pd.title = some tt) ∧ pd.parentTitle = none := by
  unfold get_page_data_from_file_path at h
  cases hp : f.parse with
  | none => rw [hp] at h; exact Option.noConfusion h
  | some parsed =>
    rw [hp] at h
    have := Option.some.inj h
    subst this
    exact ⟨⟨_, rfl⟩, rfl⟩

theorem applyPagesFile_off (opts : WalkOptions) (files : List FileNode)
    (pp : Option String × Option String) (hup : opts.usePagesFile = false) :
    applyPagesFile opts files pp = pp := by
  unfold applyPagesFile
  rw [hup]
  simp

/-- Outcome shape of the directory-content title override. -/
theorem applyDirContent_spec (opts : WalkOptions) (files : List FileNode)
    (nameStr : String) (dcp : Option Page) (pp : Option String × Option String) :
    ((applyDirContent opts files nameStr dcp pp).1 = pp.1 ∨
      ((applyDirContent opts files nameStr dcp pp).1
          = (applyDirContent opts files nameStr dcp pp).2 ∧
        dcp.isSome = true)) ∧
    (∀ t, (applyDirContent opts files nameStr dcp pp).2 = some t →
      pp.2 = some t ∨ dcp.isSome = true) ∧
    ((pp.1 = some nameStr ∨
        (opts.beautifyFolders = true ∧ pp.1 = some (beautifyName nameStr)) ∨
        pp.1 = none) →
      (applyDirContent opts files nameStr dcp pp = pp ∨
        ((applyDirContent opts files nameStr dcp pp).1
            = (applyDirContent opts files nameStr dcp pp).2 ∧
          dcp.isSome = true))) := by
  cases dcp with
  | none => exact ⟨Or.inl rfl, fun t h => Or.inl h, fun _ => Or.inl rfl⟩
  | some dcpage =>
    cases hdt : dcpage.title with
    | none =>
      simp only [applyDirContent, hdt]
      exact ⟨Or.inl trivial, fun t h => Or.inl h, fun _ => Or.inl trivial⟩
    | some dct =>
      simp only [applyDirContent, hdt]
      by_cases htr : dct ≠ ""
      · rw [if_pos htr]
        by_cases hsel : ((pp.1 == some nameStr
            || (opts.beautifyFolders && pp.1 == some (beautifyName nameStr))
            || pp.1 == none)
            || (opts.usePagesFile && !(files.map (fun f => f.name)).contains ".pages"))
            = true
        · rw [if_pos hsel]
          exact ⟨Or.inr ⟨rfl, rfl⟩, fun t _ => Or.inr rfl, fun _ => Or.inr ⟨rfl, rfl⟩⟩
        · rw [if_neg hsel]
          refine ⟨Or.inl rfl, fun t _ => Or.inr rfl, fun hdef => ?_⟩
          exfalso
          apply hsel
          rcases hdef with h | ⟨hb, h⟩ | h
          · simp [h]
          · simp [h, hb]
          · simp [h]
      · rw [if_neg htr]
        exact ⟨Or.inl rfl, fun t h => Or.inl h, fun _ => Or.inl rfl⟩

theorem sizeOf_mem_subdirs (t c : DirTree) (hc : c ∈ t.subdirs) :
    sizeOf c < sizeOf t := by
  cases t with
  | node n fs ds =>
    have hc2 : c ∈ ds := hc
    have h := List.sizeOf_lt_of_mem hc2
    simp only [DirTree.node.sizeOf_spec]
    omega

theorem forestWF_mem (ds : List DirTree) (c : DirTree) (h : forestWF ds = true)
    (hc : c ∈ ds) : dirWF c = true := by
  induction ds with
  | nil => cases hc
  | cons t ts ih =>
    have h2 : (dirWF t && forestWF ts) = true := h
    rw [Bool.and_eq_true] at h2
    cases hc with
    | head => exact h2.1
    | tail _ hc => exact ih h2.2 hc

theorem dirWF_parts (t : DirTree) (h : dirWF t = true) :
    namesNodup t.subdirs = true ∧ forestWF t.subdirs = true := by
  cases t with
  | node n fs ds =>
    have h2 : (namesNodup ds && forestWF ds) = true := h
    rw [Bool.and_eq_true] at h2
    exact h2

theorem findSubdir_of_mem_nodup (ds : List DirTree) (c : DirTree)
    (hn : namesNodup ds = true) (hc : c ∈ ds) : findSubdir ds c.name = some c := by
  induction ds with
  | nil => cases hc
  | cons t ts ih =>
    have hn2 : (!(ts.any (fun u => u.name == t.name)) && namesNodup ts) = true := hn
    rw [Bool.and_eq_true] at hn2
    cases hc with
    | head => simp [findSubdir, List.find?]
    | tail _ hc =>
      have hany : (ts.any (fun u => u.name == t.name)) = false := by
        cases hx : ts.any (fun u => u.name == t.name) with
        | false => rfl
        | true =>
          exfalso
          have := hn2.1
          rw [hx] at this
          simp at this
      have hne : (t.name == c.name) = false := by
        by_contra hx
        have heq : t.name = c.name := by
          cases hy : (t.name == c.name) with
          | false => exact absurd hy hx
          | true => simpa using hy
        have : ts.any (fun u => u.name == t.name) = true := by
          rw [List.any_eq_true]
          exact ⟨c, hc, by simp [heq]⟩
        rw [this] at hany
        cases hany
      unfold findSubdir
      simp only [List.find?, hne]
      exact ih hn2.2 hc

theorem nodeGo_snoc (suffix : List String) (t : DirTree) (x : String) :
    nodeGo t (suffix ++ [x])
      = match nodeGo t suffix with
        | some m => findSubdir m.subdirs x
        | none => none := by
  induction suffix generalizing t with
  | nil =>
    show nodeGo t [x] = _
    cases hf : findSubdir t.subdirs x <;> simp [nodeGo, hf]
  | cons n rest ih =>
    show nodeGo t ((n :: rest) ++ [x]) = _
    cases hf : findSubdir t.subdirs n with
    | none => simp [nodeGo, hf]
    | some c => simp [nodeGo, hf, ih c]

theorem nodeAt?_snoc (tree : DirTree) (p : List String) (x : String) (hp : p ≠ []) :
    nodeAt? tree (p ++ [x])
      = match nodeAt? tree p with
        | some m => findSubdir m.subdirs x
        | none => none := by
  cases p with
  | nil => exact absurd rfl hp
  | cons n rest =>
    by_cases hn : tree.name = n
    · simp only [List.cons_append, nodeAt?]
      rw [if_pos hn, if_pos hn]
      exact nodeGo_snoc rest tree x
    · simp only [List.cons_append, nodeAt?]
      rw [if_neg hn, if_neg hn]

theorem walkForest_mem (ds : List DirTree) (pre : List String)
    (e : List String × DirTree) (h : e ∈ walkForest ds pre) :
    ∃ t ∈ ds, e ∈ walkEntries t pre := by
  induction ds with
  | nil => cases h
  | cons t ts ih =>
    have h2 : e ∈ walkEntries t pre ++ walkForest ts pre := h
    rw [List.mem_append] at h2
    cases h2 with
    | inl h1 => exact ⟨t, List.mem_cons_self t ts, h1⟩
    | inr h1 =>
      obtain ⟨u, hu, he⟩ := ih h1
      exact ⟨u, List.mem_cons_of_mem t hu, he⟩

theorem walkEntries_shape (t : DirTree) (pre : List String)
    (e : List String × DirTree) (h : e ∈ walkEntries t pre) :
    e = (pre ++ [t.name], t) ∨
      ∃ c ∈ t.subdirs, e ∈ walkEntries c (pre ++ [t.name]) := by
  cases t with
  | node n fs ds =>
    have h2 : e ∈ ((pre ++ [n], DirTree.node n fs ds) :: walkForest ds (pre ++ [n])) := h
    rw [List.mem_cons] at h2
    cases h2 with
    | inl h1 => exact Or.inl h1
    | inr h1 =>
      obtain ⟨c, hc, he⟩ := walkForest_mem ds (pre ++ [n]) e h1
      exact Or.inr ⟨c, hc, he⟩

theorem walkEntries_resolve (N : Nat) : ∀ (t : DirTree), sizeOf t ≤ N →
    dirWF t = true → ∀ (pre : List String) (e : List String × DirTree),
    e ∈ walkEntries t pre →
    ∃ suffix, e.1 = (pre ++ [t.name]) ++ suffix ∧ nodeGo t suffix = some e.2 := by
  induction N with
  | zero =>
    intro t hsz _ _ _ _
    exfalso
    cases t with
    | node n fs ds =>
      rw [DirTree.node.sizeOf_spec] at hsz
      omega
  | succ N ih =>
    intro t hsz hwf pre e he
    cases walkEntries_shape t pre e he with
    | inl h1 =>
      refine ⟨[], ?_, ?_⟩
      · rw [h1]
        simp
      · rw [h1]
        rfl
    | inr h2 =>
      obtain ⟨c, hc, hec⟩ := h2
      have hszc : sizeOf c ≤ N := by
        have := sizeOf_mem_subdirs t c hc
        omega
      have hwfc : dirWF c = true := forestWF_mem t.subdirs c (dirWF_parts t hwf).2 hc
      obtain ⟨suf, h1, hgo⟩ := ih c hszc hwfc (pre ++ [t.name]) e hec
      refine ⟨c.name :: suf, ?_, ?_⟩
      · rw [h1]
        simp
      · show nodeGo t (c.name :: suf) = some e.2
        unfold nodeGo
        rw [findSubdir_of_mem_nodup t.subdirs c (dirWF_parts t hwf).1 hc]
        exact hgo

/-- Every entry of the flattened walk resolves, in a well-formed tree, to
the node it carries, along a path that starts at the walk root. -/
theorem entries_fact (tree : DirTree) (hwf : dirWF tree = true)
    (e : List String × DirTree) (he : e ∈ walkEntries tree []) :
    nodeAt? tree e.1 = some e.2 ∧ ∃ suffix, e.1 = tree.name :: suffix := by
  obtain ⟨suf, h1, h2⟩ := walkEntries_resolve (sizeOf tree) tree le_rfl hwf [] e he
  have h1b : e.1 = tree.name :: suf := by
    rw [h1]
    simp
  refine ⟨?_, suf, h1b⟩
  rw [h1b]
  show (if tree.name = tree.name then nodeGo tree suf else none) = some e.2
  rw [if_pos rfl]
  exact h2

theorem InvB_mono_pages (tree : DirTree) (basePath : List String) (se : Bool)
    (fd : List (List String × FolderInfo)) (ps more : List Page)
    (h : InvB tree basePath se ⟨fd, ps⟩) :
    InvB tree basePath se ⟨fd, ps ++ more⟩ := by
  intro p info hfd t ht
  cases h p info hfd t ht with
  | inl h1 =>
    left
    rw [pageTitles_append]
    exact List.mem_append_left _ h1
  | inr h1 => exact Or.inr h1

/-- The document loop preserves the topological-order invariant provided
the chosen parent title, when set, is already emitted. -/
theorem processDocsLoop_inv (tree : DirTree) (basePath : List String)
    (opts : WalkOptions) (q : List String) (ppt : Option String)
    (mdCount : Nat) (noSubdirs : Bool) :
    ∀ (files : List FileNode) (st0 st' : WalkState),
    (ppt = none ∨ ∃ t, ppt = some t ∧ t ∈ pageTitles st0.pages) →
    topoOk st0.pages = true →
    InvB tree basePath opts.skipEmpty st0 →
    processDocsLoop opts q ppt mdCount noSubdirs files st0 = .ok st' →
    topoOk st'.pages = true ∧ InvB tree basePath opts.skipEmpty st' := by
  intro files
  induction files with
  | nil =>
    intro st0 st' _ h1 h2 hrun
    have hrun2 : (Except.ok st0 : Except String WalkState) = .ok st' := hrun
    cases Except.ok.inj hrun2
    exact ⟨h1, h2⟩
  | cons f fs ih =>
    intro st0 st' hppt h1 h2 hrun
    cases hpd : get_page_data_from_file_path q f with
    | none =>
      simp only [processDocsLoop, hpd] at hrun
      exact ih st0 st' hppt h1 h2 hrun
    | some pageData =>
      simp only [processDocsLoop, hpd] at hrun
      by_cases hcr : (opts.collapseSinglePages && mdCount == 1 && noSubdirs) = true
      · rw [if_pos hcr] at hrun
        exact Except.noConfusion hrun
      · rw [if_neg hcr] at hrun
        obtain ⟨tt, htt⟩ := (get_page_data_shape q f pageData hpd).1
        have hst1 :
            topoOk (st0.pages ++ [{ pageData with parentTitle := ppt }]) = true := by
          rw [topoOk_snoc]
          refine ⟨h1, ?_⟩
          cases hppt with
          | inl h3 => exact Or.inl h3
          | inr h3 =>
            obtain ⟨t, h4, h5⟩ := h3
            exact Or.inr ⟨t, h4, h5⟩
        have hinv1 : InvB tree basePath opts.skipEmpty
            ⟨st0.folderData, st0.pages ++ [{ pageData with parentTitle := ppt }]⟩ := by
          have := InvB_mono_pages tree basePath opts.skipEmpty st0.folderData
            st0.pages [{ pageData with parentTitle := ppt }] ?_
          · exact this
          · intro p info hfd t ht
            exact h2 p info hfd t ht
        have hppt1 : ppt = none ∨ ∃ t, ppt = some t ∧
            t ∈ pageTitles (st0.pages ++ [{ pageData with parentTitle := ppt }]) := by
          cases hppt with
          | inl h3 => exact Or.inl h3
          | inr h3 =>
            obtain ⟨t, h4, h5⟩ := h3
            refine Or.inr ⟨t, h4, ?_⟩
            rw [mem_pageTitles_snoc]
            exact Or.inl h5
        by_cases hc2 : ((mdCount == 1) && opts.collapseSinglePages) = true
        · rw [if_pos hc2] at hrun
          cases hfl : fdLookup st0.folderData q with
          | none =>
            rw [hfl] at hrun
            exact Except.noConfusion hrun
          | some info =>
            rw [hfl] at hrun
            have hrun3 : processDocsLoop opts q ppt mdCount noSubdirs fs
                ⟨fdInsert st0.folderData q
                    ⟨info.nFiles, ({ pageData with parentTitle := ppt } : Page).title⟩,
                  st0.pages ++ [{ pageData with parentTitle := ppt }]⟩ = .ok st' := hrun
            apply ih _ st' ?_ hst1 ?_ hrun3
            · exact hppt1
            · intro p info2 hfd t ht
              rw [fdLookup_insert] at hfd
              by_cases hpq : p = q
              · rw [if_pos hpq] at hfd
                cases Option.some.inj hfd
                left
                rw [mem_pageTitles_snoc]
                right
                exact ht
              · rw [if_neg hpq] at hfd
                exact hinv1 p info2 hfd t ht
        · rw [if_neg hc2] at hrun
          have hrun3 : processDocsLoop opts q ppt mdCount noSubdirs fs
              ⟨st0.folderData,
                st0.pages ++ [{ pageData with parentTitle := ppt }]⟩ = .ok st' := hrun
          exact ih _ st' hppt1 hst1 hinv1 hrun3

theorem find_non_empty_spec (q : List String)
    (fd : List (List String × FolderInfo)) (default : List String) :
    (∃ par info, find_non_empty_parent_path q fd default = par ∧
       par ∈ pathParents q ∧ fdLookup fd par = some info ∧ info.nFiles ≠ 0) ∨
    find_non_empty_parent_path q fd default = default := by
  unfold find_non_empty_parent_path
  cases hfind : (pathParents q).find? (fun par =>
      match fdLookup fd par with
      | some info => info.nFiles ≠ 0
      | none => false) with
  | some par =>
    have hmem := List.mem_of_find?_eq_some hfind
    have hpred := List.find?_some hfind
    have hpred2 : (match fdLookup fd par with
        | some info => decide (info.nFiles ≠ 0)
        | none => false) = true := hpred
    cases hfl : fdLookup fd par with
    | none =>
      rw [hfl] at hpred2
      exact absurd hpred2 (by simp)
    | some info =>
      rw [hfl] at hpred2
      exact Or.inl ⟨par, info, rfl, hmem, hfl, by simpa using hpred2⟩
  | none => exact Or.inr rfl

/-- Outcome shape of the title computation with collapse_empty disabled. -/
theorem computeTitles_spec (opts : WalkOptions) (basePath q : List String)
    (nameStr : String) (mdCount : Nat) (fd0 : List (List String × FolderInfo))
    (fpt ppt ft : Option String)
    (hce : opts.collapseEmpty = false) (hqne : q ≠ [])
    (hrun : computeTitles opts basePath q nameStr mdCount
        (fdInsert fd0 q ⟨mdCount, none⟩) = .ok (fpt, ppt, ft)) :
    (q = basePath ∧ fpt = none ∧ ppt = none ∧ ft = none) ∨
    (q ≠ basePath ∧
      (∃ fpp info, fpp ≠ q ∧ fdLookup fd0 fpp = some info ∧ fpt = info.title ∧
        (opts.skipEmpty = false ∧ fpp = q.dropLast ∨
         opts.skipEmpty = true ∧ (info.nFiles ≠ 0 ∨ fpp = basePath))) ∧
      ((ppt = fpt ∧ ft = none) ∨
        (ppt = ft ∧ (ft = some nameStr ∨
          (opts.beautifyFolders = true ∧ ft = some (beautifyName nameStr)))))) := by
  simp only [computeTitles, hce, Bool.or_false, Bool.false_eq_true, if_false] at hrun
  by_cases hqb : (q == basePath) = true
  · rw [if_pos hqb] at hrun
    simp only [Except.ok.injEq, Prod.mk.injEq] at hrun
    obtain ⟨h1, h2, h3⟩ := hrun
    exact Or.inl ⟨by simpa using hqb, h1.symm, h2.symm, h3.symm⟩
  · rw [if_neg hqb] at hrun
    have hqb2 : q ≠ basePath := fun h => hqb (by simp [h])
    right
    refine ⟨hqb2, ?_⟩
    generalize hfppE : (if opts.skipEmpty = true
        then find_non_empty_parent_path q (fdInsert fd0 q ⟨mdCount, none⟩) basePath
        else q.dropLast) = fppE at hrun
    cases hfl : fdLookup (fdInsert fd0 q ⟨mdCount, none⟩) fppE with
    | none =>
      rw [hfl] at hrun
      exact Except.noConfusion hrun
    | some parentInfo =>
      rw [hfl] at hrun
      have hfppFacts : fppE ≠ q ∧
          (opts.skipEmpty = false ∧ fppE = q.dropLast ∨
           opts.skipEmpty = true ∧
             ((∃ info2, fdLookup (fdInsert fd0 q ⟨mdCount, none⟩) fppE = some info2 ∧
                info2.nFiles ≠ 0) ∨ fppE = basePath)) := by
        cases hsk : opts.skipEmpty with
        | false =>
          rw [hsk] at hfppE
          rw [if_neg (by simp)] at hfppE
          subst hfppE
          have hdne : q.dropLast ≠ q := by
            intro hcq
            have hlen := congrArg List.length hcq
            rw [List.length_dropLast] at hlen
            have hpos : 0 < q.length := List.length_pos.mpr hqne
            omega
          exact ⟨hdne, Or.inl ⟨rfl, rfl⟩⟩
        | true =>
          rw [hsk] at hfppE
          rw [if_pos rfl] at hfppE
          rcases find_non_empty_spec q (fdInsert fd0 q ⟨mdCount, none⟩) basePath with
            ⟨par, info2, heq, hmem, hfl2, hnz⟩ | heq
          · rw [heq] at hfppE
            subst hfppE
            have hne2 : par ≠ q := by
              intro hcq
              have := pathParents_length q par hmem
              rw [hcq] at this
              omega
            exact ⟨hne2, Or.inr ⟨rfl, Or.inl ⟨info2, hfl2, hnz⟩⟩⟩
          · rw [heq] at hfppE
            subst hfppE
            exact ⟨fun h => hqb2 h.symm, Or.inr ⟨rfl, Or.inr rfl⟩⟩
      have hne := hfppFacts.1
      have hfl0 : fdLookup fd0 fppE = some parentInfo := by
        rw [fdLookup_insert] at hfl
        rw [if_neg hne] at hfl
        exact hfl
      have hbr : (opts.skipEmpty = false ∧ fppE = q.dropLast ∨
          opts.skipEmpty = true ∧ (parentInfo.nFiles ≠ 0 ∨ fppE = basePath)) := by
        rcases hfppFacts.2 with ⟨hsk, hdl⟩ | ⟨hsk, hrest⟩
        · exact Or.inl ⟨hsk, hdl⟩
        · refine Or.inr ⟨hsk, ?_⟩
          rcases hrest with ⟨info2, hfl2, hnz⟩ | hbase
          · left
            have heq2 : info2 = parentInfo := Option.some.inj (hfl2.symm.trans hfl)
            rw [← heq2]
            exact hnz
          · exact Or.inr hbase
      have hrun2 : (if (mdCount == 1 && opts.collapseSinglePages) = true then
            (Except.ok (parentInfo.title, parentInfo.title, none) :
              Except String (Option String × Option String × Option String))
          else Except.ok (parentInfo.title,
            (if opts.beautifyFolders = true then some (beautifyName nameStr)
              else some nameStr),
            (if opts.beautifyFolders = true then some (beautifyName nameStr)
              else some nameStr)))
          = Except.ok (fpt, ppt, ft) := hrun
      by_cases hcs : ((mdCount == 1) && opts.collapseSinglePages) = true
      · rw [if_pos hcs] at hrun2
        simp only [Except.ok.injEq, Prod.mk.injEq] at hrun2
        obtain ⟨h1, h2, h3⟩ := hrun2
        exact ⟨⟨fppE, parentInfo, hne, hfl0, h1.symm, hbr⟩,
          Or.inl ⟨h2.symm.trans h1, h3.symm⟩⟩
      · rw [if_neg hcs] at hrun2
        cases hbf : opts.beautifyFolders with
        | false =>
          rw [hbf] at hrun2
          rw [if_neg (by simp)] at hrun2
          simp only [Except.ok.injEq, Prod.mk.injEq] at hrun2
          obtain ⟨h1, h2, h3⟩ := hrun2
          exact ⟨⟨fppE, parentInfo, hne, hfl0, h1.symm, hbr⟩,
            Or.inr ⟨h2.symm.trans h3, Or.inl h3.symm⟩⟩
        | true =>
          rw [hbf] at hrun2
          rw [if_pos rfl] at hrun2
          simp only [Except.ok.injEq, Prod.mk.injEq] at hrun2
          obtain ⟨h1, h2, h3⟩ := hrun2
          exact ⟨⟨fppE, parentInfo, hne, hfl0, h1.symm, hbr⟩,
            Or.inr ⟨h2.symm.trans h3, Or.inr ⟨rfl, h3.symm⟩⟩⟩

theorem emitFolderCond_false (opts : WalkOptions) (md : List FileNode)
    (subdirs : List DirTree) (dcp : Option Page) (ft : Option String)
    (hce : opts.collapseEmpty = false) (hft : ft.isSome = true)
    (hemit : emitFolderCond opts md subdirs dcp ft = false) :
    md.isEmpty = true ∧ dcp.isSome = false ∧
      (subdirs.isEmpty = true ∨ opts.skipEmpty = true) := by
  unfold emitFolderCond at hemit
  rw [hce, hft] at hemit
  cases hmdE : md.isEmpty <;> cases hdcS : dcp.isSome <;>
    cases hsubE : subdirs.isEmpty <;> cases hskE : opts.skipEmpty <;>
    rw [hmdE, hdcS, hsubE, hskE] at hemit <;>
    simp_all

theorem emitFolderCond_true_of_docs (opts : WalkOptions) (md : List FileNode)
    (subdirs : List DirTree) (dcp : Option Page) (ft : Option String)
    (hce : opts.collapseEmpty = false) (hft : ft.isSome = true)
    (hmd : md.isEmpty = false) : emitFolderCond opts md subdirs dcp ft = true := by
  unfold emitFolderCond
  rw [hce, hft, hmd]
  simp

/-- One directory step of the walk preserves the topological-order
invariant when .pages overrides and empty-folder collapsing are disabled. -/
theorem processDir_inv (tree : DirTree) (opts : WalkOptions)
    (ign : List String → Bool) (q : List String) (node : DirTree)
    (st st' : WalkState)
    (hup : opts.usePagesFile = false) (hce : opts.collapseEmpty = false)
    (hq : nodeAt? tree q = some node)
    (hsuf : ∃ suffix, q = tree.name :: suffix)
    (h1 : topoOk st.pages = true)
    (h2 : InvB tree [tree.name] opts.skipEmpty st)
    (hrun : processDir opts ign [tree.name] st q node = .ok st') :
    topoOk st'.pages = true ∧ InvB tree [tree.name] opts.skipEmpty st' := by
  obtain ⟨suffix, hqs⟩ := hsuf
  have hqne : q ≠ [] := by
    rw [hqs]
    simp
  simp only [processDir] at hrun
  by_cases hign : (ign q) = true
  · rw [if_pos hign] at hrun
    cases Except.ok.inj hrun
    exact ⟨h1, h2⟩
  · rw [if_neg hign] at hrun
    generalize hns : (q.getLast?.getD "") = nameStr at hrun
    cases hrd : readDirContent ign q node.files ("_" ++ nameStr ++ ".md") with
    | error e =>
      rw [hrd] at hrun
      exact Except.noConfusion hrun
    | ok dcp =>
      rw [hrd] at hrun
      generalize hmd : markdownFilesOf ign q node.files ("_" ++ nameStr ++ ".md")
        (node.files.find? (fun f => f.name == ("_" ++ nameStr ++ ".md"))).isSome = md
        at hrun
      cases hct : computeTitles opts [tree.name] q nameStr md.length
          (fdInsert st.folderData q ⟨md.length, none⟩) with
      | error e =>
        rw [hct] at hrun
        exact Except.noConfusion hrun
      | ok trip =>
        obtain ⟨fpt, pptv, ftv⟩ := trip
        rw [hct] at hrun
        have hrun2 : processDocsLoop opts q
            (applyDirContent opts node.files nameStr dcp
              (applyPagesFile opts node.files (pptv, ftv))).1
            md.length node.subdirs.isEmpty (sortFilesByName md)
            ⟨fdInsert (fdInsert st.folderData q ⟨md.length, none⟩) q
              ⟨md.length, (applyDirContent opts node.files nameStr dcp
                (applyPagesFile opts node.files (pptv, ftv))).2⟩,
             if emitFolderCond opts md node.subdirs dcp
                 (applyDirContent opts node.files nameStr dcp
                   (applyPagesFile opts node.files (pptv, ftv))).2 = true
             then st.pages ++ [folderPageOf
                 (applyDirContent opts node.files nameStr dcp
                   (applyPagesFile opts node.files (pptv, ftv))).2 fpt dcp]
             else st.pages⟩ = .ok st' := hrun
        rw [applyPagesFile_off opts node.files (pptv, ftv) hup] at hrun2
        obtain ⟨hadA, hadB, hadC⟩ :=
          applyDirContent_spec opts node.files nameStr dcp (pptv, ftv)
        generalize hAC : applyDirContent opts node.files nameStr dcp (pptv, ftv) = AC
          at hrun2 hadA hadB hadC
        have hadA2 : AC.1 = pptv ∨ (AC.1 = AC.2 ∧ dcp.isSome = true) := hadA
        have hadB2 : ∀ t, AC.2 = some t → ftv = some t ∨ dcp.isSome = true := hadB
        have hadC2 : (pptv = some nameStr ∨
            (opts.beautifyFolders = true ∧ pptv = some (beautifyName nameStr)) ∨
            pptv = none) →
            (AC = (pptv, ftv) ∨ (AC.1 = AC.2 ∧ dcp.isSome = true)) := hadC
        have hspec := computeTitles_spec opts [tree.name] q nameStr md.length
          st.folderData fpt pptv ftv hce hqne hct
        have hfptOK : fpt = none ∨ ∃ t, fpt = some t ∧ t ∈ pageTitles st.pages := by
          rcases hspec with ⟨_, hfpt, _, _⟩ | ⟨hqb2, ⟨fpp, info, hne, hfl0, hfpteq, hbr⟩, _⟩
          · exact Or.inl hfpt
          · cases hit : info.title with
            | none => exact Or.inl (hfpteq.trans hit)
            | some t =>
              right
              refine ⟨t, hfpteq.trans hit, ?_⟩
              rcases h2 fpp info hfl0 t hit with hmem | ⟨hnf, hnb, hthird⟩
              · exact hmem
              · exfalso
                rcases hbr with ⟨hsk, hdl⟩ | ⟨hsk, hrest⟩
                · rcases hthird with hsk2 | ⟨m, hm, hms⟩
                  · rw [hsk] at hsk2
                    exact Bool.noConfusion hsk2
                  · subst hdl
                    have hsne : suffix ≠ [] := by
                      intro hsnil
                      rw [hsnil] at hqs
                      exact hqb2 hqs
                    have hqlen : 2 ≤ q.length := by
                      have h0 := List.length_pos.mpr hsne
                      rw [hqs, List.length_cons]
                      omega
                    have hdlne : q.dropLast ≠ [] := by
                      intro hdnil
                      have hl := congrArg List.length hdnil
                      rw [List.length_dropLast] at hl
                      simp at hl
                      omega
                    have hqrec : q.dropLast ++ [q.getLast hqne] = q :=
                      List.dropLast_append_getLast hqne
                    have hsnoc := nodeAt?_snoc tree q.dropLast (q.getLast hqne) hdlne
                    rw [hqrec, hq, hm] at hsnoc
                    have hsnoc2 : some node = findSubdir m.subdirs (q.getLast hqne) :=
                      hsnoc
                    rw [hms] at hsnoc2
                    have hsnoc3 : some node = (none : Option DirTree) := hsnoc2
                    exact Option.noConfusion hsnoc3
                · rcases hrest with hnz | hfb
                  · exact hnz hnf
                  · exact hnb hfb
        have hmono : ∀ t, t ∈ pageTitles st.pages →
            t ∈ pageTitles (if emitFolderCond opts md node.subdirs dcp AC.2 = true
              then st.pages ++ [folderPageOf AC.2 fpt dcp] else st.pages) := by
          intro t ht
          cases hemit : emitFolderCond opts md node.subdirs dcp AC.2 with
          | false =>
            rw [if_neg (by simp)]
            exact ht
          | true =>
            rw [if_pos rfl]
            exact (mem_pageTitles_snoc _ _ _).mpr (Or.inl ht)
        have hF1 : topoOk (if emitFolderCond opts md node.subdirs dcp AC.2 = true
            then st.pages ++ [folderPageOf AC.2 fpt dcp] else st.pages) = true := by
          cases hemit : emitFolderCond opts md node.subdirs dcp AC.2 with
          | false =>
            rw [if_neg (by simp)]
            exact h1
          | true =>
            rw [if_pos rfl]
            rw [topoOk_snoc]
            refine ⟨h1, ?_⟩
            cases hfptOK with
            | inl hn => exact Or.inl hn
            | inr hex =>
              obtain ⟨t, ht, hmem⟩ := hex
              exact Or.inr ⟨t, ht, hmem⟩
        have hF2 : InvB tree [tree.name] opts.skipEmpty
            ⟨fdInsert (fdInsert st.folderData q ⟨md.length, none⟩) q ⟨md.length, AC.2⟩,
             if emitFolderCond opts md node.subdirs dcp AC.2 = true
               then st.pages ++ [folderPageOf AC.2 fpt dcp] else st.pages⟩ := by
          intro p info2 hfd t ht
          rw [fdLookup_insert] at hfd
          by_cases hpq : p = q
          · rw [if_pos hpq] at hfd
            cases Option.some.inj hfd
            have ht2 : AC.2 = some t := ht
            cases hemit : emitFolderCond opts md node.subdirs dcp AC.2 with
            | true =>
              left
              rw [if_pos rfl]
              exact (mem_pageTitles_snoc _ _ _).mpr (Or.inr ht2)
            | false =>
              right
              have hfts : AC.2.isSome = true := by
                rw [ht2]
                rfl
              obtain ⟨hmdE, hdcS, hthird⟩ := emitFolderCond_false opts md node.subdirs
                dcp AC.2 hce hfts hemit
              have hftv : ftv = some t := by
                rcases hadB2 t ht2 with h | h
                · exact h
                · rw [hdcS] at h
                  exact Bool.noConfusion h
              have hqb2 : q ≠ [tree.name] := by
                rcases hspec with ⟨_, _, _, hftnone⟩ | ⟨hqb2, _, _⟩
                · exact absurd (hftv.symm.trans hftnone) (by simp)
                · exact hqb2
              refine ⟨?_, ?_, ?_⟩
              · show md.length = 0
                have hmdnil : md = [] := by simpa using hmdE
                rw [hmdnil]
                rfl
              · rw [hpq]
                exact hqb2
              · rcases hthird with hsub | hskE
                · right
                  refine ⟨node, ?_, ?_⟩
                  · rw [hpq]
                    exact hq
                  · simpa using hsub
                · exact Or.inl hskE
          · rw [if_neg hpq] at hfd
            rw [fdLookup_insert] at hfd
            rw [if_neg hpq] at hfd
            rcases h2 p info2 hfd t ht with hmem | hrest
            · exact Or.inl (hmono t hmem)
            · exact Or.inr hrest
        have hF3 : md ≠ [] → ((AC.1 = none) ∨ ∃ t, AC.1 = some t ∧
            t ∈ pageTitles (if emitFolderCond opts md node.subdirs dcp AC.2 = true
              then st.pages ++ [folderPageOf AC.2 fpt dcp] else st.pages)) := by
          intro hmdne
          have hmdE : md.isEmpty = false := by
            cases md with
            | nil => exact absurd rfl hmdne
            | cons a as => rfl
          have hcaseEq : AC.1 = AC.2 → ((AC.1 = none) ∨ ∃ t, AC.1 = some t ∧
              t ∈ pageTitles (if emitFolderCond opts md node.subdirs dcp AC.2 = true
                then st.pages ++ [folderPageOf AC.2 fpt dcp] else st.pages)) := by
            intro heq
            cases hft2 : AC.2 with
            | none => exact Or.inl (heq.trans hft2)
            | some t =>
              have hemit := emitFolderCond_true_of_docs opts md node.subdirs dcp
                (some t) hce rfl hmdE
              refine Or.inr ⟨t, heq.trans hft2, ?_⟩
              rw [if_pos hemit]
              exact (mem_pageTitles_snoc _ _ _).mpr (Or.inr rfl)
          rcases hadA2 with hA | ⟨hA, _⟩
          · rcases hspec with ⟨_, _, hpptnone, _⟩ | ⟨hqb2, _, hsnd⟩
            · exact Or.inl (hA.trans hpptnone)
            · rcases hsnd with ⟨hpf, _⟩ | ⟨hpf, hforms⟩
              · rcases hfptOK with hn | ⟨t, htt, hmem⟩
                · exact Or.inl ((hA.trans hpf).trans hn)
                · exact Or.inr ⟨t, (hA.trans hpf).trans htt, hmono t hmem⟩
              · have hprem : pptv = some nameStr ∨
                    (opts.beautifyFolders = true ∧ pptv = some (beautifyName nameStr)) ∨
                    pptv = none := by
                  rcases hforms with hf | ⟨hb, hf⟩
                  · exact Or.inl (hpf.trans hf)
                  · exact Or.inr (Or.inl ⟨hb, hpf.trans hf⟩)
                rcases hadC2 hprem with hACeq | ⟨heq, _⟩
                · have heq2 : AC.1 = AC.2 := by
                    rw [hACeq]
                    exact hpf
                  exact hcaseEq heq2
                · exact hcaseEq heq
          · exact hcaseEq hA
        cases md with
        | nil =>
          have hfin : (Except.ok
              (⟨fdInsert (fdInsert st.folderData q ⟨0, none⟩) q ⟨0, AC.2⟩,
                if emitFolderCond opts [] node.subdirs dcp AC.2 = true
                  then st.pages ++ [folderPageOf AC.2 fpt dcp]
                  else st.pages⟩ : WalkState) : Except String WalkState)
              = .ok st' := hrun2
          cases Except.ok.inj hfin
          exact ⟨hF1, hF2⟩
        | cons f fs =>
          exact processDocsLoop_inv tree [tree.name] opts q AC.1 (f :: fs).length
            node.subdirs.isEmpty (sortFilesByName (f :: fs)) _ st'
            (hF3 (List.cons_ne_nil f fs)) hF1 hF2 hrun2

theorem processEntries_inv (tree : DirTree) (opts : WalkOptions)
    (ign : List String → Bool)
    (hup : opts.usePagesFile = false) (hce : opts.collapseEmpty = false) :
    ∀ (entries : List (List String × DirTree)) (st st' : WalkState),
    (∀ e ∈ entries, nodeAt? tree e.1 = some e.2 ∧
      ∃ suffix, e.1 = tree.name :: suffix) →
    topoOk st.pages = true →
    InvB tree [tree.name] opts.skipEmpty st →
    processEntries opts ign [tree.name] entries st = .ok st' →
    topoOk st'.pages = true ∧ InvB tree [tree.name] opts.skipEmpty st' := by
  intro entries
  induction entries with
  | nil =>
    intro st st' _ h1 h2 hrun
    have hrun2 : (Except.ok st : Except String WalkState) = .ok st' := hrun
    cases Except.ok.inj hrun2
    exact ⟨h1, h2⟩
  | cons e rest ih =>
    intro st st' hents h1 h2 hrun
    obtain ⟨p, nd⟩ := e
    cases hpd : processDir opts ign [tree.name] st p nd with
    | error er =>
      simp only [processEntries, hpd] at hrun
      exact Except.noConfusion hrun
    | ok st1 =>
      simp only [processEntries, hpd] at hrun
      have hfact := hents (p, nd) (List.mem_cons_self _ _)
      obtain ⟨hstep1, hstep2⟩ := processDir_inv tree opts ign p nd st st1 hup hce
        hfact.1 hfact.2 h1 h2 hpd
      exact ih st1 st' (fun e2 he2 => hents e2 (List.mem_cons_of_mem _ he2))
        hstep1 hstep2 hrun

/-- Fixture for the amended claim C1: a root directory holding one document
and one subdirectory with its own document, walked with all options off. -/
def c1wTree : DirTree :=
  .node "root" [⟨"a.md", some ⟨"A", "", none⟩, none⟩]
    [.node "sub" [⟨"b.md", some ⟨"B", "", none⟩, none⟩] []]

/-- The pages the default walk emits on c1wTree. -/
def c1wPages : List Page :=
  [mkWalkPage (some "A") none "" (some (.absolute ["root", "a.md"])) none,
   mkWalkPage (some "sub") none "" none none,
   mkWalkPage (some "B") (some "sub") "" (some (.absolute ["root", "sub", "b.md"])) none]

/-- Claim C1 (amended).  For every well-formed directory tree (distinct
sibling directory names), every ignore predicate, and every option
combination with use_pages_file and collapse_empty disabled, a completed
run of get_pages_from_directory emits pages in topological order: every
page whose parent_title is set is preceded in the returned list by a page
carrying that title.  (The counterexample theorem shows the unrestricted
claim fails under collapse_empty.) -/
theorem C1_amended_topological_order (tree : DirTree) (opts : WalkOptions)
    (ign : List String → Bool) (pages : List Page)
    (hwf : dirWF tree = true)
    (hup : opts.usePagesFile = false) (hce : opts.collapseEmpty = false)
    (hrun : get_pages_from_directory tree opts ign = .ok pages) :
    topoOk pages = true := by
  unfold get_pages_from_directory at hrun
  cases hpe : processEntries opts ign [tree.name] (walkEntries tree []) ⟨[], []⟩ with
  | error e =>
    rw [hpe] at hrun
    exact Except.noConfusion hrun
  | ok st =>
    rw [hpe] at hrun
    have hrun2 : (Except.ok st.pages : Except String (List Page)) = .ok pages := hrun
    cases Except.ok.inj hrun2
    have hents : ∀ e ∈ walkEntries tree [], nodeAt? tree e.1 = some e.2 ∧
        ∃ suffix, e.1 = tree.name :: suffix :=
      fun e he => entries_fact tree hwf e he
    have hinit : InvB tree [tree.name] opts.skipEmpty ⟨[], []⟩ := by
      intro p info hfd t _
      exact Option.noConfusion hfd
    exact (processEntries_inv tree opts ign hup hce (walkEntries tree []) ⟨[], []⟩ st
      hents rfl hinit hpe).1

/-- Witness for the amended claim C1: the default walk of c1wTree completes
with the pages of c1wPages, and those pages pass the topological-order
check. -/
theorem C1_witness : topoOk c1wPages = true :=
  C1_amended_topological_order c1wTree defaultWalkOptions noIgnore c1wPages
    rfl rfl rfl rfl

end Md2cf
